import Mathlib

/-!
Verification development for the CodePress SWC plugin
(`src/codepress-swc-plugin/src/lib.rs`).

The Rust source is shallowly embedded below.  Modelling conventions:

* Spans.  The span resolver (`span_file_lines`, built on the swc source map)
  is an external collaborator; AST nodes here carry the already-resolved
  `"file:startLine-endLine"` strings it would produce.  `DUMMY_SP` resolves
  to `"unknown:0-0"`.
* The expression AST `Expr` is the sub-language of `swc` expressions relevant
  to the traced claims: literals, identifiers, member accesses, binary
  expressions, object literals with statically-keyed key/value properties,
  and an opaque remainder (`unknownE`) standing for every other `Expr`
  variant, matching the catch-all arms in the source.
* `trace_expr` recurses with `depth + 1` on every recursive call and returns
  as soon as `depth > 8`, so its recursion depth is bounded by the `9 - depth`
  gas threaded through `trace_core`; the wrapper `trace_expr` has exactly the
  source semantics at every argument.
* `collect_symbol_refs_from_expr` / `push_ident_ref` recurse through binding
  initializers with no bound in the source; the embedding threads an explicit
  step `fuel`, decremented on each recursive call, and all concrete results
  are stated at fuels large enough that more fuel does not change them.
* The module-graph bookkeeping (`push_local_ref`, `push_mutation_row`,
  `ModuleGraph`) writes to state that never feeds back into the emitted JSX
  attributes; it is not modelled.
-/

namespace CodePress

/-- `swc`'s `Id`: a symbol name paired with its syntax context (scope). -/
abbrev ScopedId := String × Nat

/-- `ImportInfo { source, imported }` from the binding collector. -/
structure ImportInfo where
  source : String
  imported : String
deriving DecidableEq, Repr

mutual

/-- The modelled sub-language of `swc_core::ecma::ast::Expr`. -/
inductive Expr where
  | litNum (value : Nat) (span : String)
  | litStr (value : String) (span : String)
  | litOther (span : String)
  | identE (name : String) (ctxt : Nat) (span : String)
  | member (obj : Expr) (prop : MProp) (span : String)
  | bin (op : String) (left : Expr) (right : Expr) (span : String)
  | object (props : List (String × String × Expr)) (span : String)
  | unknownE (span : String)

/-- `MemberProp`: a plain identifier, a computed key, or a private name. -/
inductive MProp where
  | mIdent (name : String)
  | mComputed (e : Expr)
  | mPrivate

end

/-- `Expr::span()`. -/
def Expr.spanOf : Expr → String
  | .litNum _ sp => sp
  | .litStr _ sp => sp
  | .litOther sp => sp
  | .identE _ _ sp => sp
  | .member _ _ sp => sp
  | .bin _ _ _ sp => sp
  | .object _ sp => sp
  | .unknownE sp => sp

/-- `Binding` recorded by `BindingCollector` (the field `import` of the source
is called `importInfo` here because `import` is a Lean keyword). -/
structure Binding where
  def_span : String
  init : Option Expr
  importInfo : Option ImportInfo
  fn_body_span : Option String

/-- The binding table `HashMap<Id, Binding>`, as an association list with
unique keys; `lookupBinding` is `HashMap::get`. -/
abbrev Bindings := List (ScopedId × Binding)

def lookupBinding : Bindings → ScopedId → Option Binding
  | [], _ => none
  | (k, b) :: rest, i => if k = i then some b else lookupBinding rest i

/-- The `ProvNode` enum, verbatim (constructors that clash with Lean keywords
carry a `P` suffix). -/
inductive ProvNode where
  | literal (span : String) (value_kind : String)
  | identP (name : String) (span : String)
  | initP (span : String)
  | importP (source : String) (imported : String) (span : String)
  | memberP (span : String)
  | objectProp (key : String) (span : String)
  | arrayElem (index : Nat) (span : String)
  | callP (callee : String) (callsite : String) (callee_span : String)
      (fn_def_span : Option String)
  | ctorP (callee : String) (span : String)
  | opP (op : String) (span : String)
  | envP (key : String) (span : String)
  | fetchP (url : Option String) (span : String)
  | contextP (name : String) (span : String)
  | hookP (name : String) (span : String)
  | unknownP (span : String)
deriving DecidableEq, Repr

/-- `detect_env_member`, applied to the object and property of a
`MemberExpr`: recognizes `process.env.X` and `import.meta.env.X`. -/
def detect_env_member (mobj : Expr) (mprop : MProp) : Option String :=
  match mobj with
  | .member objobj objprop _ =>
    let procCase : Option String :=
      match objobj, objprop, mprop with
      | .identE pn _ _, .mIdent en, .mIdent key =>
        if pn = "process" ∧ en = "env" then some key else none
      | _, _, _ => none
    match procCase with
    | some k => some k
    | none =>
      match objobj, objprop, mprop with
      | .member o2o o2p _, .mIdent en, .mIdent key =>
        (match o2o, o2p with
         | .identE imn _ _, .mIdent mtn =>
           if imn = "import" ∧ mtn = "meta" ∧ en = "env" then some key else none
         | _, _ => none)
      | _, _, _ => none
  | _ => none

/-- Body of `CodePressTransform::trace_expr`.  Every recursive call in the
source passes `depth + 1` and the function returns as soon as `depth > 8`,
so recursion depth is bounded by `9 - depth`: `gas` carries exactly that
bound (see `trace_expr` below), making the recursion structural. -/
def trace_core (B : Bindings) (gas : Nat) (e : Expr) (chain : List ProvNode)
    (depth : Nat) (seen : List ScopedId) : List ProvNode :=
  if depth > 8 ∨ chain.length > 128 then chain
  else
    match gas with
    | 0 => chain
    | g + 1 =>
      match e with
      | .litNum _ sp => chain ++ [.literal sp "number"]
      | .litStr _ sp => chain ++ [.literal sp "string"]
      | .litOther sp => chain ++ [.literal sp "other"]
      | .identE name ctxt sp =>
        let chain1 := chain ++ [.identP name sp]
        if (name, ctxt) ∈ seen then chain1
        else
          match lookupBinding B (name, ctxt) with
          | none => chain1
          | some b =>
            let chain2 :=
              match b.init with
              | some ie =>
                trace_core B g ie (chain1 ++ [.initP ie.spanOf]) (depth + 1) seen
              | none => chain1
            match b.importInfo with
            | some im => chain2 ++ [.importP im.source im.imported b.def_span]
            | none => chain2
      | .member obj prop sp =>
        match detect_env_member obj prop with
        | some key => chain ++ [.envP key sp]
        | none =>
          let chain1 := trace_core B g obj (chain ++ [.memberP sp]) (depth + 1) seen
          match prop with
          | .mComputed ce => trace_core B g ce chain1 (depth + 1) seen
          | _ => chain1
      | .bin op l r sp =>
        let chain1 :=
          trace_core B g l (chain ++ [.opP ("binary:" ++ op) sp]) (depth + 1) seen
        trace_core B g r chain1 (depth + 1) seen
      | .object props _ =>
        props.foldl
          (fun ch kv =>
            trace_core B g kv.2.2 (ch ++ [.objectProp kv.1 kv.2.1]) (depth + 1) seen)
          chain
      | .unknownE sp => chain ++ [.unknownP sp]

/-- `CodePressTransform::trace_expr(expr, chain, depth, seen)`.  Since the
source recursion returns whenever `depth > 8` and increments `depth` on every
recursive call, running `trace_core` with gas `9 - depth` reproduces the
source behavior at every argument. -/
def trace_expr (B : Bindings) (e : Expr) (chain : List ProvNode)
    (depth : Nat) (seen : List ScopedId) : List ProvNode :=
  trace_core B (9 - depth) e chain depth seen

/-- `Candidate { target, reason }`. -/
structure Candidate where
  target : String
  reason : String
deriving DecidableEq, Repr

/-- The per-node candidate emission of `rank_candidates` (the body of its
`for` loop); node kinds not listed fall to the `_ => {}` arm. -/
def candidate_nodes : List ProvNode → List Candidate
  | [] => []
  | n :: rest =>
    (match n with
     | .literal sp _ => [⟨sp, "literal"⟩]
     | .initP sp => [⟨sp, "const-init"⟩]
     | .memberP sp => [⟨sp, "member"⟩]
     | .objectProp _ sp => [⟨sp, "structural"⟩]
     | .arrayElem _ sp => [⟨sp, "structural"⟩]
     | .callP _ callsite _ fnDef =>
       ⟨callsite, "callsite"⟩ ::
         (match fnDef with
          | some d => [⟨d, "fn-def"⟩]
          | none => [])
     | .ctorP _ sp => [⟨sp, "constructor"⟩]
     | .importP _ _ sp => [⟨sp, "import"⟩]
     | .envP _ sp => [⟨sp, "env"⟩]
     | .fetchP _ sp => [⟨sp, "fetch"⟩]
     | _ => []) ++ candidate_nodes rest

/-- The trailing dedup of `rank_candidates`: keep a candidate iff the key
`reason#target` was not seen before, preserving order. -/
def dedup_candidates (seen : List String) : List Candidate → List Candidate
  | [] => []
  | c :: rest =>
    let key := c.reason ++ "#" ++ c.target
    if key ∈ seen then dedup_candidates seen rest
    else c :: dedup_candidates (key :: seen) rest

/-- `CodePressTransform::rank_candidates`. -/
def rank_candidates (chain : List ProvNode) : List Candidate :=
  dedup_candidates [] (candidate_nodes chain)

/-- The `kind` string `aggregate_kinds` derives from each `ProvNode`. -/
def kind_tag : ProvNode → String
  | .literal _ _ => "literal"
  | .identP _ _ => "ident"
  | .initP _ => "init"
  | .importP _ _ _ => "import"
  | .memberP _ => "member"
  | .objectProp _ _ => "object"
  | .arrayElem _ _ => "array"
  | .callP _ _ _ _ => "call"
  | .ctorP _ _ => "ctor"
  | .opP _ _ => "op"
  | .envP _ _ => "env"
  | .fetchP _ _ => "fetch"
  | .contextP _ _ => "context"
  | .hookP _ _ => "hook"
  | .unknownP _ => "unknown"

/-- Ordered-set insertion: `BTreeSet<&str>::insert` followed by ascending
iteration keeps a sorted duplicate-free list. -/
def sorted_insert (s : String) : List String → List String
  | [] => [s]
  | x :: xs =>
    match compare s x with
    | .lt => s :: x :: xs
    | .eq => x :: xs
    | .gt => x :: sorted_insert s xs

/-- `CodePressTransform::aggregate_kinds`: insert every node's tag into a
`BTreeSet` and return the ascending contents. -/
def aggregate_kinds (chain : List ProvNode) : List String :=
  chain.foldl (fun acc n => sorted_insert (kind_tag n) acc) []

/-- `SymbolRef { file, local, path, span }` (the source field `local` is a
Lean keyword, hence `localName`). -/
structure SymbolRef where
  file : String
  localName : String
  path : String
  span : String
deriving DecidableEq, Repr

/-- Character-list view of the handful of string primitives the source uses
(`trim`, `starts_with`, `ends_with`, prefix/suffix stripping); implemented
over `String.data` so that they compute inside the kernel.  Whitespace is the
ASCII whitespace that can occur in the JSON payloads at hand. -/
def is_ws (c : Char) : Bool :=
  c = ' ' ∨ c = '\t' ∨ c = '\n' ∨ c = '\r'

def trim_str (s : String) : String :=
  String.mk (((s.data.dropWhile is_ws).reverse.dropWhile is_ws).reverse)

def starts_with_char (s : String) (c : Char) : Bool :=
  match s.data with
  | x :: _ => x = c
  | [] => false

def ends_with_char (s : String) (c : Char) : Bool :=
  match s.data.reverse with
  | x :: _ => x = c
  | [] => false

def drop_first (s : String) : String :=
  String.mk (s.data.drop 1)

def drop_last (s : String) : String :=
  String.mk s.data.dropLast

/-- `file_from_span(span).unwrap_or_else(|| self.current_file())`: spans here
are resolved `"file:lines"` strings, so the file is the prefix before `:`;
a dummy span falls back to the module file `mf` (`current_file`). -/
def file_from_span (mf : String) (span : String) : String :=
  if span = "unknown:0-0" then mf
  else String.mk (span.data.takeWhile (fun c => c ≠ ':'))

/-- `push_seg` inside `member_to_root_and_path`. -/
def push_seg (path : String) (seg : String) (bracketed : Bool) : String :=
  if bracketed then path ++ "[" ++ seg ++ "]"
  else if path = "" then path ++ seg
  else path ++ "." ++ seg

/-- `CodePressTransform::member_to_root_and_path` restricted to the modelled
sub-language (no optional chains): returns
`(rootName, rootCtxt, path, rootSpan)`.  The `{:?}` Debug formatting of a
computed string key is modelled as plain quoting. -/
def member_to_root_and_path : Expr → Option (String × Nat × String × String)
  | .member obj prop _ =>
    let root? : Option (String × Nat × String × String) :=
      match obj with
      | .identE n c sp => some (n, c, "", sp)
      | objExpr => member_to_root_and_path objExpr
    (match root? with
     | none => none
     | some (rn, rc, path, rsp) =>
       let path' :=
         match prop with
         | .mIdent p => push_seg path p false
         | .mComputed ce =>
           (match ce with
            | .litStr s _ => push_seg path ("\"" ++ s ++ "\"") true
            | .litNum n _ => push_seg path (toString n) true
            | .identE p _ _ => push_seg path p true
            | _ => path)
         | .mPrivate => path
       some (rn, rc, path', rsp))
  | _ => none

/-- The body of `CodePressTransform::push_ident_ref`: record the ref, then
«chase initializer exactly once» by handing the initializer to `chase`
(which, in the source, is `collect_symbol_refs_from_expr` itself). -/
def push_ident_core (B : Bindings) (mf : String)
    (chase : Expr → List SymbolRef → List SymbolRef)
    (name : String) (ctxt : Nat) (path : Option String) (span : String)
    (out : List SymbolRef) : List SymbolRef :=
  let out1 := out ++ [⟨file_from_span mf span, name, path.getD "", span⟩]
  match lookupBinding B (name, ctxt) with
  | some b =>
    (match b.init with
     | some ie => chase ie out1
     | none => out1)
  | none => out1

/-- `CodePressTransform::collect_symbol_refs_from_expr` on the modelled
sub-language.  The source recursion is unbounded (it re-enters itself through
`push_ident_ref` for every recorded identifier's initializer); the embedding
threads a step `fuel`, decremented on each recursive call, and concrete
results below are stated at fuels large enough to be stable. -/
def collect_symbol_refs_from_expr (B : Bindings) (mf : String) :
    Nat → Expr → List SymbolRef → List SymbolRef
  | 0, _, out => out
  | fuel + 1, e, out =>
    match e with
    | .identE n c sp =>
      push_ident_core B mf
        (fun ie o => collect_symbol_refs_from_expr B mf fuel ie o) n c none sp out
    | .member _ _ _ =>
      (match member_to_root_and_path e with
       | some (rn, rc, path, rsp) =>
         let p := if path = "" then none else some path
         push_ident_core B mf
           (fun ie o => collect_symbol_refs_from_expr B mf fuel ie o) rn rc p rsp out
       | none => out)
    | .bin _ l r _ =>
      collect_symbol_refs_from_expr B mf fuel r
        (collect_symbol_refs_from_expr B mf fuel l out)
    | .object props _ =>
      props.foldl (fun o kv => collect_symbol_refs_from_expr B mf fuel kv.2.2 o) out
    | .litNum _ _ => out
    | .litStr _ _ => out
    | .litOther _ => out
    | .unknownE _ => out

/-- `CodePressTransform::push_ident_ref` as a standalone entry point. -/
def push_ident_ref (B : Bindings) (mf : String) (fuel : Nat)
    (name : String) (ctxt : Nat) (path : Option String) (span : String)
    (out : List SymbolRef) : List SymbolRef :=
  push_ident_core B mf
    (fun ie o => collect_symbol_refs_from_expr B mf fuel ie o) name ctxt path span out

/-- Modelled from the spec (§4.4): the resolver it describes records an
identifier, chases «one hop through an identifier's initializer», and records
identifiers found inside that initializer *without* chasing their own
initializers further.  Stated as a second definition only to compare with the
source-derived `collect_symbol_refs_from_expr`. -/
def one_hop_symbol_refs (B : Bindings) (mf : String) :
    Nat → Bool → Expr → List SymbolRef → List SymbolRef
  | 0, _, _, out => out
  | fuel + 1, chase, e, out =>
    match e with
    | .identE n c sp =>
      let out1 := out ++ [⟨file_from_span mf sp, n, "", sp⟩]
      if chase then
        match lookupBinding B (n, c) with
        | some b =>
          (match b.init with
           | some ie => one_hop_symbol_refs B mf fuel false ie out1
           | none => out1)
        | none => out1
      else out1
    | .member _ _ _ =>
      (match member_to_root_and_path e with
       | some (rn, rc, path, rsp) =>
         let out1 := out ++ [⟨file_from_span mf rsp, rn, path, rsp⟩]
         if chase then
           match lookupBinding B (rn, rc) with
           | some b =>
             (match b.init with
              | some ie => one_hop_symbol_refs B mf fuel false ie out1
              | none => out1)
           | none => out1
         else out1
       | none => out)
    | .bin _ l r _ =>
      one_hop_symbol_refs B mf fuel chase r (one_hop_symbol_refs B mf fuel chase l out)
    | .object props _ =>
      props.foldl (fun o kv => one_hop_symbol_refs B mf fuel chase kv.2.2 o) out
    | _ => out

/-- `xor_encode`: the XOR/base64 obfuscation is commented out in the source
(«TODO: turn on encoding for production»); the function returns its input. -/
def xor_encode (input : String) : String :=
  input

/-- `CodePressTransform::merge_json_arrays_str`: merge two JSON-array strings
without parsing, by literal concatenation of their bodies. -/
def merge_json_arrays_str (lhs rhs : String) : String :=
  let l := trim_str lhs
  let r := trim_str rhs
  let empty_l := l = "[]" ∨ l = ""
  let empty_r := r = "[]" ∨ r = ""
  if empty_l ∧ empty_r then "[]"
  else if empty_l then r
  else if empty_r then l
  else
    let l_body :=
      if starts_with_char l '[' ∧ ends_with_char l ']' then drop_last (drop_first l) else l
    let r_body :=
      if starts_with_char r '[' ∧ ends_with_char r ']' then drop_last (drop_first r) else r
    if l_body = "" then "[" ++ r_body ++ "]"
    else if r_body = "" then "[" ++ l_body ++ "]"
    else "[" ++ l_body ++ "," ++ r_body ++ "]"

-- ---------------------------------------------------------------------------
-- JSX attributes
-- ---------------------------------------------------------------------------

/-- A `JSXAttrValue` of the modelled subset: a string literal
(`Lit::Str`) or an expression container. -/
inductive AttrVal where
  | lit (s : String)
  | exprC (e : Expr)

/-- A named `JSXAttr` (spread attributes are outside the modelled subset). -/
structure JSXAttr where
  name : String
  value : Option AttrVal

/-- `get_attr_string` (identical in `CodePressTransform` and
`HoistAndElide`): first attribute with this name carrying a string-literal
value; name matches with non-literal values are scanned past. -/
def get_attr_string : List JSXAttr → String → Option String
  | [], _ => none
  | a :: rest, key =>
    match a.value with
    | some (.lit s) => if a.name = key then some s else get_attr_string rest key
    | _ => get_attr_string rest key

/-- `attach_attr_string` / `HoistAndElide::push_attr`: push a string-valued
attribute at the end. -/
def attach_attr_string (attrs : List JSXAttr) (key : String) (val : String) :
    List JSXAttr :=
  attrs ++ [⟨key, some (.lit val)⟩]

/-- `has_attr` / `has_repo_attribute`-style check: any attribute with this
name, regardless of its value. -/
def has_attr (attrs : List JSXAttr) (key : String) : Bool :=
  attrs.any (fun a => a.name = key)

/-- `HoistAndElide::remove_attr` / the `retain` in `set_attr_string`: keep
exactly the attributes whose name differs from `key`. -/
def remove_attr : List JSXAttr → String → List JSXAttr
  | [], _ => []
  | a :: rest, key =>
    if a.name = key then remove_attr rest key else a :: remove_attr rest key

/-- `CodePressTransform::set_attr_string`: remove existing, then push. -/
def set_attr_string (attrs : List JSXAttr) (key : String) (val : String) :
    List JSXAttr :=
  attach_attr_string (remove_attr attrs key) key val

/-- One iteration of the `for key in keys` loop of
`HoistAndElide::copy_payload_keys`. -/
def copy_payload_step (src : List JSXAttr) (dst : List JSXAttr) (key : String) :
    List JSXAttr :=
  match get_attr_string src key with
  | some val =>
    if key = "data-codepress-callsite-symbol-refs" ∨ key = "data-codepress-symbol-refs"
    then
      match get_attr_string dst key with
      | some existing =>
        attach_attr_string (remove_attr dst key) key (merge_json_arrays_str existing val)
      | none => attach_attr_string dst key val
    else
      if has_attr dst key then dst else attach_attr_string dst key val
  | none => dst

/-- `HoistAndElide::copy_payload_keys`. -/
def copy_payload_keys (src : List JSXAttr) (dst : List JSXAttr)
    (keys : List String) : List JSXAttr :=
  keys.foldl (fun d key => copy_payload_step src d key) dst

/-- The `keys` list built in `process_transform` for the Pass-2 elider. -/
def elide_keys : List String :=
  [ "data-codepress-edit-candidates",
    "data-codepress-source-kinds",
    "data-codepress-callsite",
    "data-codepress-symbol-refs",
    "data-codepress-callsite-symbol-refs" ]

-- ---------------------------------------------------------------------------
-- JSX tree
-- ---------------------------------------------------------------------------

/-- `JSXElementName` subset: an identifier, or a member chain with its root
identifier (namespaced names are not modelled). -/
inductive TagName where
  | tIdent (s : String)
  | tMember (root : String) (path : List String)
deriving DecidableEq, Repr

/-- `wrapper_tag` set in `CodePressTransform::new`. -/
def wrapper_tag : String := "codepress-marker"

/-- `provider_ident` set in `CodePressTransform::new`. -/
def provider_ident : String := "__CPProvider"

/-- The lowercase-first-character test used both by
`visit_mut_jsx_element` (`is_host_pre`) and by `HoistAndElide::is_host`
(ASCII case, which covers every tag name at hand). -/
def is_host_tag : TagName → Bool
  | .tIdent s =>
    (match s.data with
     | c :: _ => c.isLower
     | [] => false)
  | _ => false

/-- `CodePressTransform::is_custom_component_name`: uppercase-leading
identifier, or any member/namespaced name. -/
def is_custom_component_name : TagName → Bool
  | .tIdent s =>
    (match s.data with
     | c :: _ => c.isUpper
     | [] => false)
  | .tMember _ _ => true

/-- `CodePressTransform::is_synthetic_element`. -/
def is_synthetic_element : TagName → Bool
  | .tIdent s => s = wrapper_tag ∨ s = provider_ident ∨ s = "__CPX"
  | .tMember root _ => root = "__CPX" ∨ root = provider_ident

mutual

/-- A JSX tree node: an element (tag, attributes, children, and its
resolved span as `(file, "startLine-endLine")`, `none` for `DUMMY_SP`),
an expression container child, or a text child. -/
inductive Node where
  | elem (tag : TagName) (attrs : List JSXAttr) (children : NodeList)
      (span : Option (String × String))
  | exprChild (e : Expr)
  | textChild (span : String)

/-- Children lists, as a mutual inductive so that tree recursion stays
structural. -/
inductive NodeList where
  | nil
  | cons (hd : Node) (tl : NodeList)

end

def NodeList.len : NodeList → Nat
  | .nil => 0
  | .cons _ tl => tl.len + 1

-- ---------------------------------------------------------------------------
-- Provenance / symbol-ref gathering over a JSX element (Pass-1 helpers)
-- ---------------------------------------------------------------------------

/-- The attribute loop of `collect_from_jsx_element`: for every attribute
whose value is an expression container, trace it with a fresh chain and
`seen` set, extend `all_nodes`, and collect its symbol refs.  (The
`push_local_ref` module-graph bookkeeping is separate state, not modelled.) -/
def collect_attrs (B : Bindings) (mf : String) (fuel : Nat) :
    List JSXAttr → List ProvNode → List SymbolRef → List ProvNode × List SymbolRef
  | [], nodes, refs => (nodes, refs)
  | a :: rest, nodes, refs =>
    match a.value with
    | some (.exprC e) =>
      let chain := trace_expr B e [] 0 []
      let refs1 := collect_symbol_refs_from_expr B mf fuel e refs
      collect_attrs B mf fuel rest (nodes ++ chain) refs1
    | _ => collect_attrs B mf fuel rest nodes refs

mutual

/-- `CodePressTransform::collect_from_jsx_element` (deep walk): this
element's attributes, then its children. -/
def collect_el (B : Bindings) (mf : String) (fuel : Nat) :
    Node → List ProvNode → List SymbolRef → List ProvNode × List SymbolRef
  | .elem _ attrs children _, nodes, refs =>
    let acc := collect_attrs B mf fuel attrs nodes refs
    collect_children B mf fuel children acc.1 acc.2
  | .exprChild _, nodes, refs => (nodes, refs)
  | .textChild _, nodes, refs => (nodes, refs)

/-- The children loop of `collect_from_jsx_element`: expression containers
are traced and resolved, nested elements recursed into, text children pushed
as string literals. -/
def collect_children (B : Bindings) (mf : String) (fuel : Nat) :
    NodeList → List ProvNode → List SymbolRef → List ProvNode × List SymbolRef
  | .nil, nodes, refs => (nodes, refs)
  | .cons c tl, nodes, refs =>
    let acc : List ProvNode × List SymbolRef :=
      match c with
      | .exprChild e =>
        (nodes ++ trace_expr B e [] 0 [],
         collect_symbol_refs_from_expr B mf fuel e refs)
      | .elem t a cs sp => collect_el B mf fuel (.elem t a cs sp) nodes refs
      | .textChild sp => (nodes ++ [ProvNode.literal sp "string"], refs)
    collect_children B mf fuel tl acc.1 acc.2

end

/-- The direct-expression-children loop of
`collect_shallow_from_jsx_element` (nested elements and fragments are
skipped in shallow mode). -/
def shallow_children (B : Bindings) (mf : String) (fuel : Nat) :
    NodeList → List SymbolRef → List SymbolRef
  | .nil, refs => refs
  | .cons (.exprChild e) tl, refs =>
    shallow_children B mf fuel tl (collect_symbol_refs_from_expr B mf fuel e refs)
  | .cons _ tl, refs => shallow_children B mf fuel tl refs

/-- `CodePressTransform::collect_shallow_from_jsx_element`: this element's
own expression-valued attributes and direct expression children only. -/
def collect_shallow (B : Bindings) (mf : String) (fuel : Nat) (n : Node) :
    List SymbolRef :=
  match n with
  | .elem _ attrs children _ =>
    let refs1 := attrs.foldl
      (fun acc a =>
        match a.value with
        | some (.exprC e) => collect_symbol_refs_from_expr B mf fuel e acc
        | _ => acc) []
    shallow_children B mf fuel children refs1
  | _ => []

-- ---------------------------------------------------------------------------
-- Serialization (serde_json::to_string on the payload types)
-- ---------------------------------------------------------------------------

def json_escape (s : String) : String :=
  String.mk (s.data.foldr
    (fun c acc =>
      if c = '"' then '\\' :: '"' :: acc
      else if c = '\\' then '\\' :: '\\' :: acc
      else c :: acc) [])

def jstr (s : String) : String := "\"" ++ json_escape s ++ "\""

def intercalate_comma : List String → String
  | [] => ""
  | [x] => x
  | x :: rest => x ++ "," ++ intercalate_comma rest

def json_candidate (c : Candidate) : String :=
  "\x7b\"target\":" ++ jstr c.target ++ ",\"reason\":" ++ jstr c.reason ++ "\x7d"

def json_candidates (cl : List Candidate) : String :=
  "[" ++ intercalate_comma (cl.map json_candidate) ++ "]"

def json_strings (ks : List String) : String :=
  "[" ++ intercalate_comma (ks.map jstr) ++ "]"

def json_symbol_ref (r : SymbolRef) : String :=
  "\x7b\"file\":" ++ jstr r.file ++ ",\"local\":" ++ jstr r.localName ++
    ",\"path\":" ++ jstr r.path ++ ",\"span\":" ++ jstr r.span ++ "\x7d"

def json_symbol_refs (rs : List SymbolRef) : String :=
  "[" ++ intercalate_comma (rs.map json_symbol_ref) ++ "]"

-- ---------------------------------------------------------------------------
-- Pass 1: the placement engine (visit_mut_jsx_element)
-- ---------------------------------------------------------------------------

/-- The plugin configuration read by `CodePressTransform::new` (only
`repo_name` and `branch_name` are consumed there). -/
structure Config where
  repo_name : Option String
  branch_name : Option String

/-- `create_encoded_path_attr`'s attribute value: the (externally
normalized) file name, with `":start-end"` appended when line info exists;
`"unknown"` for a synthetic span. -/
def encoded_path_val (span : Option (String × String)) : String :=
  match span with
  | some (f, lines) => xor_encode f ++ ":" ++ lines
  | none => xor_encode "unknown"

/-- The root repo/branch stamping block of `visit_mut_jsx_element`
(lines guarded by `GLOBAL_ATTRIBUTES_ADDED`): `flag` is the process-wide
atomic boolean. -/
def stamp_globals (cfg : Config) (flag : Bool) (tag : TagName)
    (attrs : List JSXAttr) : List JSXAttr × Bool :=
  if cfg.repo_name.isSome ∧ flag = false then
    let element_name :=
      match tag with
      | .tIdent s => s
      | _ => ""
    if element_name = "html" ∨ element_name = "body" ∨ element_name = "div" then
      let a1 :=
        if has_attr attrs "codepress-github-repo-name" then attrs
        else
          match cfg.repo_name with
          | some repo => attach_attr_string attrs "codepress-github-repo-name" repo
          | none => attrs
      let a2 :=
        if has_attr a1 "codepress-github-branch" then a1
        else
          match cfg.branch_name with
          | some br => attach_attr_string a1 "codepress-github-branch" br
          | none => a1
      (a2, true)
    else (attrs, flag)
  else (attrs, flag)

/-- The `self_target` candidate appended after ranking in
`visit_mut_jsx_element` (skipped for synthetic spans or when an equal
callsite candidate already exists). -/
def add_self_callsite (span : Option (String × String)) (cands : List Candidate) :
    List Candidate :=
  match span with
  | some (f, lines) =>
    let self_target := f ++ ":" ++ lines
    if cands.any (fun c => c.reason = "callsite" ∧ c.target = self_target) then cands
    else cands ++ [⟨self_target, "callsite"⟩]
  | none => cands

/-- The last-match `codepress-data-fp` lookup inside the custom-call branch
of `visit_mut_jsx_element`. -/
def find_fp (attrs : List JSXAttr) : String :=
  attrs.foldl
    (fun acc a =>
      if a.name = "codepress-data-fp" then
        match a.value with
        | some (.lit s) => s
        | _ => acc
      else acc) ""

/-- The three host-ancestor attribute updates a custom-component callsite
performs through `host_attr_stack` (merge shallow refs, merge deep refs,
first-writer callsite). -/
structure HostMsg where
  csr : String
  sr : String
  cs : String

/-- «MERGE (not overwrite)» one refs key on a host ancestor: merge with the
existing value if present, else attach. -/
def merge_or_attach (attrs : List JSXAttr) (key val : String) : List JSXAttr :=
  match get_attr_string attrs key with
  | some existing => set_attr_string attrs key (merge_json_arrays_str existing val)
  | none => attach_attr_string attrs key val

/-- The first-writer-wins callsite stamp on a host ancestor: «No-op if
already set». -/
def put_if_absent (attrs : List JSXAttr) (key val : String) : List JSXAttr :=
  match get_attr_string attrs key with
  | some _ => attrs
  | none => attach_attr_string attrs key val

def apply_host_msg (attrs : List JSXAttr) (m : HostMsg) : List JSXAttr :=
  put_if_absent
    (merge_or_attach
      (merge_or_attach attrs "data-codepress-callsite-symbol-refs" m.csr)
      "data-codepress-symbol-refs" m.sr)
    "data-codepress-callsite" m.cs

def apply_host_msgs (attrs : List JSXAttr) (msgs : List HostMsg) : List JSXAttr :=
  msgs.foldl apply_host_msg attrs

/-- The `style={{display:'contents'}}` expression of
`make_display_contents_wrapper`. -/
def style_contents_expr : Expr :=
  .object [("display", "unknown:0-0", .litStr "contents" "unknown:0-0")] "unknown:0-0"

/-- `make_display_contents_wrapper` plus the two `attach_attr_string` calls
of the no-host-ancestor branch, wrapping `inner`. -/
def wrap_in_marker (callsiteVal csr sr : String) (inner : Node) : Node :=
  .elem (.tIdent wrapper_tag)
    (attach_attr_string
      (attach_attr_string
        [⟨"style", some (.exprC style_contents_expr)⟩,
         ⟨"data-codepress-callsite", some (.lit callsiteVal)⟩]
        "data-codepress-callsite-symbol-refs" csr)
      "data-codepress-symbol-refs" sr)
    (.cons inner .nil) none

/-- `ProviderMeta`. -/
structure ProviderMeta where
  cs : String
  c : String
  k : String
  fp : String
  sr : String
  csr : String

/-- The `value={{cs,c,k,fp}}` object literal serialized by
`wrap_with_provider` (only those four fields are emitted). -/
def provider_value_expr (m : ProviderMeta) : Expr :=
  .object
    [("cs", "unknown:0-0", .litStr m.cs "unknown:0-0"),
     ("c", "unknown:0-0", .litStr m.c "unknown:0-0"),
     ("k", "unknown:0-0", .litStr m.k "unknown:0-0"),
     ("fp", "unknown:0-0", .litStr m.fp "unknown:0-0")] "unknown:0-0"

/-- `CodePressTransform::wrap_with_provider`. -/
def wrap_with_provider (m : ProviderMeta) (inner : Node) : Node :=
  .elem (.tIdent provider_ident)
    [⟨"value", some (.exprC (provider_value_expr m))⟩]
    (.cons inner .nil) none

/-- The tail of `visit_mut_jsx_element` (everything after the recursive
`visit_mut_children_with` call, which `pass1_visit` below performs):
synthetic-element early return, `codepress-data-fp` push, global repo/branch
stamping, provenance gathering, and the host/custom placement branch.
`attrs1` already carries the host-ancestor merges performed while the
children were visited; `msgsUp` is what this subtree forwards to the nearest
open host ancestor. -/
def pass1_finish (cfg : Config) (B : Bindings) (mf : String) (fuel : Nat)
    (tag : TagName) (attrs1 : List JSXAttr) (children' : NodeList)
    (span : Option (String × String)) (inHost : Bool) (flag1 : Bool)
    (msgsUp : List HostMsg) : Node × Bool × List HostMsg :=
  if is_synthetic_element tag then (.elem tag attrs1 children' span, flag1, msgsUp)
  else
    let fpVal := encoded_path_val span
    let attrs2 := attach_attr_string attrs1 "codepress-data-fp" fpVal
    let stamped := stamp_globals cfg flag1 tag attrs2
    let attrs3 := stamped.1
    let flag2 := stamped.2
    let node1 : Node := .elem tag attrs3 children' span
    let gathered := collect_el B mf fuel node1 [] []
    let symrefs_shallow := collect_shallow B mf fuel node1
    let candidates := add_self_callsite span (rank_candidates gathered.1)
    let kinds := aggregate_kinds gathered.1
    let cands_enc := xor_encode (json_candidates candidates)
    let kinds_enc := xor_encode (json_strings kinds)
    let symrefs_enc := xor_encode (json_symbol_refs gathered.2)
    let cs_symrefs_enc := xor_encode (json_symbol_refs symrefs_shallow)
    let is_custom_call := !is_host_tag tag && is_custom_component_name tag
    if is_custom_call then
      let attrs4 :=
        attach_attr_string
          (attach_attr_string
            (attach_attr_string attrs3 "data-codepress-edit-candidates" cands_enc)
            "data-codepress-source-kinds" kinds_enc)
          "data-codepress-symbol-refs" symrefs_enc
      let nodeA : Node := .elem tag attrs4 children' span
      if inHost then
        let meta : ProviderMeta :=
          ⟨fpVal, cands_enc, kinds_enc, find_fp attrs4, symrefs_enc, cs_symrefs_enc⟩
        (wrap_with_provider meta nodeA, flag2,
          msgsUp ++ [⟨cs_symrefs_enc, symrefs_enc, fpVal⟩])
      else
        let wrapped := wrap_in_marker fpVal cs_symrefs_enc symrefs_enc nodeA
        let wrapperAttrs :=
          match wrapped with
          | .elem _ a _ _ => a
          | _ => []
        let meta : ProviderMeta :=
          ⟨fpVal, cands_enc, kinds_enc, find_fp wrapperAttrs, symrefs_enc,
            cs_symrefs_enc⟩
        (wrap_with_provider meta wrapped, flag2, msgsUp)
    else
      let attrs4 :=
        attach_attr_string
          (attach_attr_string
            (attach_attr_string
              (attach_attr_string attrs3 "data-codepress-edit-candidates" cands_enc)
              "data-codepress-source-kinds" kinds_enc)
            "data-codepress-symbol-refs" symrefs_enc)
          "data-codepress-callsite-symbol-refs" cs_symrefs_enc
      let attrs5 := attrs4 ++ [⟨"data-codepress-callsite", some (.lit fpVal)⟩]
      (.elem tag attrs5 children' span, flag2, msgsUp)

mutual

/-- `CodePressTransform::visit_mut_jsx_element` (Pass 1), in functional
form.  `inHost` is whether `host_attr_stack` is non-empty (a lowercase-tag
ancestor is open); the returned `List HostMsg` carries, in traversal order,
the updates this subtree performs on that nearest open host ancestor's
attributes, which `pass1_visit` applies when it is itself the host
(`is_host_pre`).  `flag` threads `GLOBAL_ATTRIBUTES_ADDED`. -/
def pass1_visit (cfg : Config) (B : Bindings) (mf : String) (fuel : Nat)
    (inHost : Bool) (flag : Bool) : Node → Node × Bool × List HostMsg
  | .exprChild e => (.exprChild e, flag, [])
  | .textChild sp => (.textChild sp, flag, [])
  | .elem tag attrs children span =>
    let is_host_pre := is_host_tag tag
    let rec3 :=
      pass1_visit_children cfg B mf fuel (inHost || is_host_pre) flag children
    let children' := rec3.1
    let flag1 := rec3.2.1
    let childMsgs := rec3.2.2
    let attrs1 := if is_host_pre then apply_host_msgs attrs childMsgs else attrs
    let msgsUp : List HostMsg := if is_host_pre then [] else childMsgs
    pass1_finish cfg B mf fuel tag attrs1 children' span inHost flag1 msgsUp

/-- Depth-first children traversal of Pass 1, threading the global flag and
concatenating host-ancestor updates in traversal order. -/
def pass1_visit_children (cfg : Config) (B : Bindings) (mf : String) (fuel : Nat)
    (inHost : Bool) (flag : Bool) : NodeList → NodeList × Bool × List HostMsg
  | .nil => (.nil, flag, [])
  | .cons c tl =>
    let r1 := pass1_visit cfg B mf fuel inHost flag c
    let r2 := pass1_visit_children cfg B mf fuel inHost r1.2.1 tl
    (.cons r1.1 r2.1, r2.2.1, r1.2.2 ++ r2.2.2)

end

-- ---------------------------------------------------------------------------
-- Pass 2: HoistAndElide
-- ---------------------------------------------------------------------------

/-- `HoistAndElide::is_wrapper`: identifier tags equal to the wrapper tag
only. -/
def is_wrapper (t : TagName) : Bool :=
  match t with
  | .tIdent s => s = wrapper_tag
  | _ => false

/-- `HoistAndElide::first_host_descendant_mut`, functionally: apply `f` to
the attributes of the first host descendant (depth-first over element
children), returning `none` when there is none. -/
def fhu_children (f : List JSXAttr → List JSXAttr) : NodeList → Option NodeList
  | .nil => none
  | .cons (.elem t a cs sp) tl =>
    if is_host_tag t then some (.cons (.elem t (f a) cs sp) tl)
    else
      (match fhu_children f cs with
       | some cs' => some (.cons (.elem t a cs' sp) tl)
       | none =>
         match fhu_children f tl with
         | some tl' => some (.cons (.elem t a cs sp) tl')
         | none => none)
  | .cons (.exprChild e) tl =>
    (match fhu_children f tl with
     | some tl' => some (.cons (.exprChild e) tl')
     | none => none)
  | .cons (.textChild sp) tl =>
    (match fhu_children f tl with
     | some tl' => some (.cons (.textChild sp) tl')
     | none => none)

/-- The hoist step of `HoistAndElide::visit_mut_jsx_element`: prefer the
first host descendant of the wrapper's child; failing that, put the payload
on the child invocation itself. -/
def hoist_into (src_attrs : List JSXAttr) (keys : List String) : Node → Node
  | .elem t a cs sp =>
    (match fhu_children (fun hostAttrs => copy_payload_keys src_attrs hostAttrs keys) cs with
     | some cs' => .elem t a cs' sp
     | none => .elem t (copy_payload_keys src_attrs a keys) cs sp)
  | n => n

mutual

/-- `HoistAndElide::visit_mut_jsx_element` (Pass 2): children first; then a
wrapper with exactly one element child is replaced by that (augmented)
child; everything else is left as visited. -/
def pass2_visit (keys : List String) : Node → Node
  | .elem tag attrs children span =>
    let children' := pass2_children keys children
    let node1 : Node := .elem tag attrs children' span
    if !is_wrapper tag || children'.len ≠ 1 then node1
    else
      (match children' with
       | .cons (.elem ct ca ccs csp) .nil =>
         hoist_into attrs keys (.elem ct ca ccs csp)
       | _ => node1)
  | n => n

def pass2_children (keys : List String) : NodeList → NodeList
  | .nil => .nil
  | .cons c tl => .cons (pass2_visit keys c) (pass2_children keys tl)

end

-- ---------------------------------------------------------------------------
-- process_transform: the two passes in sequence
-- ---------------------------------------------------------------------------

/-- `process_transform` restricted to one JSX tree: bindings are collected
up front (they are a parameter here), Pass 1 runs, then Pass 2 with
`elide_keys`.  The module-level statement injections
(`ensure_provider_inline`, `inject_graph_stmt`) add module items outside the
user's JSX tree and are not part of this tree-to-tree function. -/
def process_file (cfg : Config) (B : Bindings) (mf : String) (fuel : Nat)
    (flag : Bool) (t : Node) : Node × Bool :=
  let r := pass1_visit cfg B mf fuel false flag t
  (pass2_visit elide_keys r.1, r.2.1)

/-- Several files transformed in sequence by the same process, sharing the
single `GLOBAL_ATTRIBUTES_ADDED` flag. -/
def process_files (cfg : Config) (fuel : Nat) (flag : Bool) :
    List (Bindings × String × Node) → List Node × Bool
  | [] => ([], flag)
  | (B, mf, t) :: rest =>
    let r1 := process_file cfg B mf fuel flag t
    let r2 := process_files cfg fuel r1.2 rest
    (r1.1 :: r2.1, r2.2)

-- ---------------------------------------------------------------------------
-- Tree observations
-- ---------------------------------------------------------------------------

mutual

/-- Does the tree contain an element whose identifier tag equals `name`? -/
def contains_ident_tag : Node → String → Bool
  | .elem (.tIdent s) _ cs _, name => s = name || contains_ident_tag_list cs name
  | .elem _ _ cs _, name => contains_ident_tag_list cs name
  | _, _ => false

def contains_ident_tag_list : NodeList → String → Bool
  | .nil, _ => false
  | .cons c tl, name => contains_ident_tag c name || contains_ident_tag_list tl name

end

/-- No `codepress-marker` element anywhere in the tree. -/
def no_marker (n : Node) : Bool := !(contains_ident_tag n wrapper_tag)

mutual

/-- Every wrapper element in the tree has exactly one child, and that child
is an element (the shape Pass 1 always creates and Pass 2 always elides). -/
def markers_ok : Node → Bool
  | .elem tag _ cs _ =>
    (if is_wrapper tag then
       match cs with
       | .cons (.elem _ _ _ _) .nil => true
       | _ => false
     else true) && markers_ok_list cs
  | _ => true

def markers_ok_list : NodeList → Bool
  | .nil => true
  | .cons c tl => markers_ok c && markers_ok_list tl

end

mutual

/-- Number of elements in the tree having an attribute named `key`. -/
def count_attr : Node → String → Nat
  | .elem _ attrs cs _, key =>
    (if has_attr attrs key then 1 else 0) + count_attr_list cs key
  | _, _ => 0

def count_attr_list : NodeList → String → Nat
  | .nil, _ => 0
  | .cons c tl, key => count_attr c key + count_attr_list tl key

end

/-- The shapes §7(d) of the spec calls structurally impossible for a marker:
no children, several children, or a sole non-element child. -/
def wrapper_shape_bad : NodeList → Bool
  | .nil => true
  | .cons (.elem _ _ _ _) .nil => false
  | .cons _ .nil => true
  | .cons _ (.cons _ _) => true

-- ---------------------------------------------------------------------------
-- Concrete programs used in the stated results
-- ---------------------------------------------------------------------------

/-- Bindings for `const x = 1`. -/
def exB4 : Bindings :=
  [ (("x", 0),
     { def_span := "t.tsx:1-1", init := some (.litNum 1 "t.tsx:1-1"),
       importInfo := none, fn_body_span := none }) ]

/-- The attribute expression `x + x`. -/
def exE4 : Expr :=
  .bin "Add" (.identE "x" 0 "t.tsx:5-5") (.identE "x" 0 "t.tsx:5-5") "t.tsx:5-5"

/-- Bindings for `const x = y; const y = z` (with `z` unbound), an acyclic
two-hop initializer chain. -/
def exB6 : Bindings :=
  [ (("x", 0),
     { def_span := "f.ts:2-2", init := some (.identE "y" 0 "f.ts:2-2"),
       importInfo := none, fn_body_span := none }),
    (("y", 0),
     { def_span := "f.ts:3-3", init := some (.identE "z" 0 "f.ts:3-3"),
       importInfo := none, fn_body_span := none }) ]

/-- Bindings for `import { importedName } from "./user"; const userName =
importedName`. -/
def exB7 : Bindings :=
  [ (("userName", 0),
     { def_span := "app.tsx:2-2",
       init := some (.identE "importedName" 0 "app.tsx:2-2"),
       importInfo := none, fn_body_span := none }),
    (("importedName", 0),
     { def_span := "app.tsx:1-1", init := none,
       importInfo := some ⟨"./user", "importedName"⟩, fn_body_span := none }) ]

/-- The attribute expression `"a:" + userName` of `<div title={...} />`. -/
def exE7 : Expr :=
  .bin "Add" (.litStr "a:" "app.tsx:5-5") (.identE "userName" 0 "app.tsx:5-5")
    "app.tsx:5-5"

/-- A nested binary expression of the given depth
(`((…(0 + 1) + 2 …) + n)`). -/
def nested_bin : Nat → Expr
  | 0 => .litNum 0 "d.ts:1-1"
  | n + 1 =>
    .bin "Add" (nested_bin n) (.litNum (n + 1) "d.ts:2-2") "d.ts:3-3"

/-- `<Card />`: an uppercase component invocation with no host ancestor. -/
def exCard : Node := .elem (.tIdent "Card") [] .nil (some ("app.tsx", "3-3"))

/-- A configuration with no repo/branch identifiers. -/
def cfg0 : Config := { repo_name := none, branch_name := none }

/-- A configuration with repo and branch identifiers. -/
def cfg1 : Config := { repo_name := some "acme/app", branch_name := some "main" }

/-- First file: a root-eligible `<div />`. -/
def exDivA : Node := .elem (.tIdent "div") [] .nil (some ("a.tsx", "1-5"))

/-- Second file: another root-eligible `<div />`. -/
def exDivB : Node := .elem (.tIdent "div") [] .nil (some ("b.tsx", "2-7"))

/-- A well-formed marker wrapping a `<div />`. -/
def exInnerMarker : Node :=
  .elem (.tIdent "codepress-marker") []
    (.cons (.elem (.tIdent "div") [] .nil (some ("x.tsx", "1-1"))) .nil) none

/-- A marker with two children (one of them a nested well-formed marker):
the shape the spec says Pass 2 must leave completely untouched. -/
def exOuterMarker : Node :=
  .elem (.tIdent "codepress-marker") [⟨"data-codepress-callsite", some (.lit "x.tsx:9-9")⟩]
    (.cons (.elem (.tIdent "span") [] .nil (some ("x.tsx", "2-2")))
      (.cons exInnerMarker .nil)) none

/-- A marker whose sole child is text. -/
def exTextMarker : Node :=
  .elem (.tIdent "codepress-marker") [] (.cons (.textChild "x.tsx:4-4") .nil) none

-- ===========================================================================
-- Theorems
-- ===========================================================================

/-- Claim C10: the payload encoder `xor_encode` is the identity — the
XOR/base64 obfuscation is commented out in the source, so every emitted
metadata attribute value passes through unobfuscated, and
`xor_encode "" = ""` holds as a special case. -/
theorem C10_xor_encode_identity :
    (∀ s : String, xor_encode s = s) ∧ xor_encode "" = "" :=
  ⟨fun _ => rfl, rfl⟩

set_option maxRecDepth 4000

/-- Claim C3: the provenance tracer is total (it is a function below), its
recursion stops — returning the chain unchanged — as soon as `depth > 8` or
the chain length exceeds 128, and tracing a 50-level-deep nested binary
expression completes with a candidate list of size at most 128. -/
theorem C3_trace_total_bounded :
    (∀ (B : Bindings) (e : Expr) (chain : List ProvNode) (depth : Nat)
        (seen : List ScopedId), 8 < depth → trace_expr B e chain depth seen = chain) ∧
    (∀ (B : Bindings) (e : Expr) (chain : List ProvNode) (depth : Nat)
        (seen : List ScopedId), 128 < chain.length →
        trace_expr B e chain depth seen = chain) ∧
    (rank_candidates (trace_expr [] (nested_bin 50) [] 0 [])).length ≤ 128 := by
  refine ⟨?_, ?_, ?_⟩
  · intro B e chain depth seen h
    unfold trace_expr trace_core
    simp [h]
  · intro B e chain depth seen h
    unfold trace_expr trace_core
    simp [h]
  · decide

/-- Witness for C3: both guards fire at concrete inputs (depth 9 with an
empty chain; a 129-element chain at depth 0), and the 50-deep example is as
stated. -/
theorem C3_witness :
    trace_expr exB4 exE4 [] 9 [] = [] ∧
    trace_expr exB4 exE4 (List.replicate 129 (ProvNode.unknownP "s")) 0 [] =
      List.replicate 129 (ProvNode.unknownP "s") := by
  constructor
  · exact C3_trace_total_bounded.1 exB4 exE4 [] 9 [] (by decide)
  · exact C3_trace_total_bounded.2.1 exB4 exE4 _ 0 [] (by decide)

/-- Claim C4 (code bug): `trace_expr` never inserts into `seenIdents`, so at
the failing input `x + x` (with `const x = 1`) the second occurrence of the
same `ScopedId` is re-expanded — `Init` is pushed and the initializer traced
again — whereas the claim says the set records each visited identifier and
the second occurrence stops after `Ident`. -/
theorem C4_seen_never_recorded :
    trace_expr exB4 exE4 [] 0 [] =
      [.opP "binary:Add" "t.tsx:5-5", .identP "x" "t.tsx:5-5", .initP "t.tsx:1-1",
       .literal "t.tsx:1-1" "number", .identP "x" "t.tsx:5-5", .initP "t.tsx:1-1",
       .literal "t.tsx:1-1" "number"] ∧
    trace_expr exB4 exE4 [] 0 [] ≠
      [.opP "binary:Add" "t.tsx:5-5", .identP "x" "t.tsx:5-5", .initP "t.tsx:1-1",
       .literal "t.tsx:1-1" "number", .identP "x" "t.tsx:5-5"] := by
  constructor
  · decide
  · decide

/-- Counterexample to C7: for `<div title={"a:" + userName} />` with
`const userName = importedName` imported from `"./user"`, the source-kind
set is not `{ident, import, literal, op}` (it also contains `init`), and the
ranked candidate list does not have exactly two entries (the `const-init`
candidate makes it three). -/
theorem C7_counterexample :
    aggregate_kinds (trace_expr exB7 exE7 [] 0 []) ≠
      ["ident", "import", "literal", "op"] ∧
    (rank_candidates (trace_expr exB7 exE7 [] 0 [])).length ≠ 2 := by
  constructor
  · decide
  · decide

/-- Claim C7 as amended: the pipeline produces the kind set
`{ident, import, init, literal, op}` and exactly three candidates — the
literal's span (reason `literal`), the initializer's span (reason
`const-init`), and the import's span (reason `import`), in chain order. -/
theorem C7_amended_kinds_and_candidates :
    aggregate_kinds (trace_expr exB7 exE7 [] 0 []) =
      ["ident", "import", "init", "literal", "op"] ∧
    rank_candidates (trace_expr exB7 exE7 [] 0 []) =
      [⟨"app.tsx:5-5", "literal"⟩, ⟨"app.tsx:2-2", "const-init"⟩,
       ⟨"app.tsx:1-1", "import"⟩] := by
  constructor
  · decide
  · decide

/-- Counterexample to C6: with `const x = y; const y = z`, the source
resolver applied to `x` records `z` — it chases `y`'s initializer as well —
while a resolver that stops after one hop (the spec's wording, modelled by
`one_hop_symbol_refs`) records only `x` and `y`. -/
theorem C6_counterexample :
    collect_symbol_refs_from_expr exB6 "f.ts" 10 (.identE "x" 0 "f.ts:9-9") [] =
      [⟨"f.ts", "x", "", "f.ts:9-9"⟩, ⟨"f.ts", "y", "", "f.ts:2-2"⟩,
       ⟨"f.ts", "z", "", "f.ts:3-3"⟩] ∧
    one_hop_symbol_refs exB6 "f.ts" 10 true (.identE "x" 0 "f.ts:9-9") [] =
      [⟨"f.ts", "x", "", "f.ts:9-9"⟩, ⟨"f.ts", "y", "", "f.ts:2-2"⟩] ∧
    collect_symbol_refs_from_expr exB6 "f.ts" 10 (.identE "x" 0 "f.ts:9-9") [] ≠
      one_hop_symbol_refs exB6 "f.ts" 10 true (.identE "x" 0 "f.ts:9-9") [] := by
  refine ⟨by decide, by decide, by decide⟩

/-- Claim C6 as amended: for every identifier it records, the resolver
collects refs from that identifier's initializer once, but it does so by
re-entering the full resolver — so identifiers found inside the initializer
have their own initializers chased as well, transitively (concretely, the
two-hop ref `z` above is recorded). -/
theorem C6_amended_transitive_chase :
    (∀ (B : Bindings) (mf : String) (fuel : Nat) (n : String) (c : Nat)
        (sp : String) (out : List SymbolRef) (b : Binding) (ie : Expr),
        lookupBinding B (n, c) = some b → b.init = some ie →
        collect_symbol_refs_from_expr B mf (fuel + 1) (.identE n c sp) out =
          collect_symbol_refs_from_expr B mf fuel ie
            (out ++ [⟨file_from_span mf sp, n, "", sp⟩])) ∧
    (⟨"f.ts", "z", "", "f.ts:3-3"⟩ : SymbolRef) ∈
      collect_symbol_refs_from_expr exB6 "f.ts" 10 (.identE "x" 0 "f.ts:9-9") [] := by
  constructor
  · intro B mf fuel n c sp out b ie h1 h2
    simp [collect_symbol_refs_from_expr, push_ident_core, h1, h2]
  · decide

/-- Witness for C6: the chase equation instantiated at the concrete binding
of `x` in `exB6`. -/
theorem C6_witness :
    collect_symbol_refs_from_expr exB6 "f.ts" 10 (.identE "x" 0 "f.ts:9-9") [] =
      collect_symbol_refs_from_expr exB6 "f.ts" 9 (.identE "y" 0 "f.ts:2-2")
        ([] ++ [⟨file_from_span "f.ts" "f.ts:9-9", "x", "", "f.ts:9-9"⟩]) :=
  C6_amended_transitive_chase.1 exB6 "f.ts" 9 "x" 0 "f.ts:9-9" []
    { def_span := "f.ts:2-2", init := some (.identE "y" 0 "f.ts:2-2"),
      importInfo := none, fn_body_span := none }
    (.identE "y" 0 "f.ts:2-2") rfl rfl

/-- Counterexample to C1: transforming the single-element program
`<Card />` (an uppercase component invocation), the tree returned after
Pass 2 still contains an element with the reserved synthetic tag
`__CPProvider` — the provider carrier introduced by Pass 1 is not removed,
because `HoistAndElide::is_wrapper` matches only `codepress-marker`. -/
theorem C1_counterexample :
    contains_ident_tag (process_file cfg0 [] "app.tsx" 9 false exCard).1
      "__CPProvider" = true ∧
    is_synthetic_element (.tIdent "__CPProvider") = true := by
  constructor
  · decide
  · decide

/-- Counterexample to C9: a marker with two children, the second of which is
a nested well-formed marker, is not left completely unchanged by Pass 2: the
outer marker survives with its attributes, but its children are still
visited, so the nested marker inside them is elided. -/
theorem C9_counterexample :
    contains_ident_tag_list
      (.cons (.elem (.tIdent "span") [] .nil (some ("x.tsx", "2-2")))
        (.cons exInnerMarker .nil)) "codepress-marker" = true ∧
    (match pass2_visit elide_keys exOuterMarker with
     | .elem t a cs _ =>
       (is_wrapper t, get_attr_string a "data-codepress-callsite", a.length,
        contains_ident_tag_list cs "codepress-marker")
     | _ => (false, none, 0, true)) =
      (true, some "x.tsx:9-9", 1, false) := by
  constructor
  · decide
  · decide

-- ---------------------------------------------------------------------------
-- Attribute-list lemmas (shared)
-- ---------------------------------------------------------------------------

theorem get_attr_append (l1 l2 : List JSXAttr) (key : String) :
    get_attr_string (l1 ++ l2) key =
      (match get_attr_string l1 key with
       | some v => some v
       | none => get_attr_string l2 key) := by
  induction l1 with
  | nil => simp [get_attr_string]
  | cons a rest ih =>
    cases hv : a.value with
    | none => simp [get_attr_string, hv, ih]
    | some av =>
      cases av with
      | lit s =>
        by_cases hn : a.name = key
        · simp [get_attr_string, hv, hn]
        · simp [get_attr_string, hv, hn, ih]
      | exprC e => simp [get_attr_string, hv, ih]

theorem get_attr_single (k key v : String) :
    get_attr_string [⟨k, some (.lit v)⟩] key = if k = key then some v else none := by
  by_cases h : k = key <;> simp [get_attr_string, h]

theorem get_attach_ne (l : List JSXAttr) (k v key : String) (h : ¬ k = key) :
    get_attr_string (attach_attr_string l k v) key = get_attr_string l key := by
  unfold attach_attr_string
  rw [get_attr_append]
  cases hg : get_attr_string l key <;> simp [get_attr_single, h]

theorem get_attach_of_get_none (l : List JSXAttr) (k v : String)
    (h : get_attr_string l k = none) :
    get_attr_string (attach_attr_string l k v) k = some v := by
  unfold attach_attr_string
  rw [get_attr_append]
  simp [h, get_attr_single]

theorem has_attach_ne (l : List JSXAttr) (k v key : String) (h : ¬ k = key) :
    has_attr (attach_attr_string l k v) key = has_attr l key := by
  simp [has_attr, attach_attr_string, h]

theorem get_remove_ne (k key : String) (h : ¬ k = key) :
    ∀ l : List JSXAttr, get_attr_string (remove_attr l k) key = get_attr_string l key
  | [] => by simp [remove_attr, get_attr_string]
  | a :: rest => by
    have h' : ¬ key = k := fun hc => h hc.symm
    by_cases hn : a.name = k
    · have hnk : ¬ a.name = key := by rw [hn]; exact h
      cases hv : a.value with
      | none => simp [remove_attr, get_attr_string, hn, hv, h,
          get_remove_ne k key h rest]
      | some av =>
        cases av with
        | lit s =>
          simp [remove_attr, get_attr_string, hn, hnk, hv, h,
            get_remove_ne k key h rest]
        | exprC e =>
          simp [remove_attr, get_attr_string, hn, hv, h, get_remove_ne k key h rest]
    · cases hv : a.value with
      | none => simp [remove_attr, get_attr_string, hn, hv,
          get_remove_ne k key h rest]
      | some av =>
        cases av with
        | lit s =>
          by_cases hk2 : a.name = key
          · simp [remove_attr, get_attr_string, hn, hv, hk2, h']
          · simp [remove_attr, get_attr_string, hn, hv, hk2,
              get_remove_ne k key h rest]
        | exprC e =>
          simp [remove_attr, get_attr_string, hn, hv, get_remove_ne k key h rest]

theorem has_remove_ne (k key : String) (h : ¬ k = key) :
    ∀ l : List JSXAttr, has_attr (remove_attr l k) key = has_attr l key
  | [] => by simp [remove_attr, has_attr]
  | a :: rest => by
    have hrec := has_remove_ne k key h rest
    simp only [has_attr] at hrec
    by_cases hn : a.name = k
    · simp [remove_attr, has_attr, hn, h, hrec, List.any_cons]
    · simp [remove_attr, has_attr, hn, hrec, List.any_cons]

theorem has_remove_self (k : String) :
    ∀ l : List JSXAttr, has_attr (remove_attr l k) k = false
  | [] => by simp [remove_attr, has_attr]
  | a :: rest => by
    by_cases hn : a.name = k
    · simp [remove_attr, hn, has_remove_self k rest]
    · have := has_remove_self k rest
      simp only [has_attr] at this
      simp [remove_attr, has_attr, hn, this, List.any_cons]

theorem get_of_has_false : ∀ (l : List JSXAttr) (k : String),
    has_attr l k = false → get_attr_string l k = none
  | [], _, _ => by simp [get_attr_string]
  | a :: rest, k, h => by
    simp only [has_attr, List.any_cons, Bool.or_eq_false_iff] at h
    have hn : ¬ a.name = k := by
      intro hc
      rcases h with ⟨h1, _⟩
      simp [hc] at h1
    have hrest : has_attr rest k = false := by
      simp [has_attr, h.2]
    cases hv : a.value with
    | none => simp [get_attr_string, hv, get_of_has_false rest k hrest]
    | some av =>
      cases av with
      | lit s => simp [get_attr_string, hv, hn, get_of_has_false rest k hrest]
      | exprC e => simp [get_attr_string, hv, get_of_has_false rest k hrest]

theorem has_cons (a : JSXAttr) (rest : List JSXAttr) (k : String) :
    has_attr (a :: rest) k = (decide (a.name = k) || has_attr rest k) := by
  simp [has_attr, List.any_cons]

theorem has_of_get_some : ∀ (l : List JSXAttr) (k v : String),
    get_attr_string l k = some v → has_attr l k = true
  | [], k, v, h => by simp [get_attr_string] at h
  | a :: rest, k, v, h => by
    rw [has_cons]
    cases hv : a.value with
    | none =>
      rw [get_attr_string] at h
      simp only [hv] at h
      simp [has_of_get_some rest k v h]
    | some av =>
      cases av with
      | lit s =>
        rw [get_attr_string] at h
        simp only [hv] at h
        by_cases hn : a.name = k
        · simp [hn]
        · simp only [hn, if_false] at h
          simp [has_of_get_some rest k v h]
      | exprC e =>
        rw [get_attr_string] at h
        simp only [hv] at h
        simp [has_of_get_some rest k v h]

theorem get_set_self (l : List JSXAttr) (k v : String) :
    get_attr_string (set_attr_string l k v) k = some v := by
  unfold set_attr_string
  exact get_attach_of_get_none _ _ _ (get_of_has_false _ _ (has_remove_self k l))

-- ---------------------------------------------------------------------------
-- copy_payload_step lemmas
-- ---------------------------------------------------------------------------

theorem copy_step_ne (src d : List JSXAttr) (k key : String) (h : ¬ k = key) :
    get_attr_string (copy_payload_step src d k) key = get_attr_string d key := by
  unfold copy_payload_step
  cases hs : get_attr_string src k with
  | none => rfl
  | some val =>
    by_cases hr :
        (k = "data-codepress-callsite-symbol-refs" ∨ k = "data-codepress-symbol-refs")
    · simp only [hr, if_true]
      cases hd : get_attr_string d k
      · simp [get_attach_ne _ _ _ _ h]
      · rw [get_attach_ne _ _ _ _ h, get_remove_ne _ _ h]
    · simp only [hr, if_false]
      by_cases hh : has_attr d k = true
      · simp [hh]
      · simp only [Bool.not_eq_true] at hh
        simp [hh, get_attach_ne _ _ _ _ h]

theorem copy_step_merge (src d : List JSXAttr) (k v w : String)
    (hr : k = "data-codepress-callsite-symbol-refs" ∨ k = "data-codepress-symbol-refs")
    (hs : get_attr_string src k = some v) (hd : get_attr_string d k = some w) :
    get_attr_string (copy_payload_step src d k) k =
      some (merge_json_arrays_str w v) := by
  unfold copy_payload_step
  simp only [hs, hr, if_true, hd]
  exact get_attach_of_get_none _ _ _ (get_of_has_false _ _ (has_remove_self k d))

theorem copy_step_scalar_keep (src d : List JSXAttr) (k : String)
    (hr : ¬ (k = "data-codepress-callsite-symbol-refs" ∨ k = "data-codepress-symbol-refs"))
    (hd : has_attr d k = true) :
    copy_payload_step src d k = d := by
  unfold copy_payload_step
  cases hs : get_attr_string src k with
  | none => rfl
  | some val => simp [hr, hd]

-- ---------------------------------------------------------------------------
-- C5
-- ---------------------------------------------------------------------------

/-- The source attrs of the C5 counterexample: a marker carrying an
edit-candidates payload `[2]`. -/
def c5_src : List JSXAttr := [⟨"data-codepress-edit-candidates", some (.lit "[2]")⟩]

/-- The destination attrs of the C5 counterexample: already carrying `[1]`. -/
def c5_dst : List JSXAttr := [⟨"data-codepress-edit-candidates", some (.lit "[1]")⟩]

/-- Counterexample to C5: the edit-candidates key is not merged by array
concatenation — when both sides carry a value, the destination's value wins
and the merge result `[1,2]` is never produced. -/
theorem C5_counterexample :
    get_attr_string (copy_payload_keys c5_src c5_dst elide_keys)
        "data-codepress-edit-candidates" = some "[1]" ∧
    merge_json_arrays_str "[1]" "[2]" = "[1,2]" ∧
    get_attr_string (copy_payload_keys c5_src c5_dst elide_keys)
        "data-codepress-edit-candidates" ≠
      some (merge_json_arrays_str "[1]" "[2]") := by
  refine ⟨by decide, by decide, by decide⟩

/-- Claim C5 as amended: in Pass 2's payload merge, exactly the two
symbol-refs keys are merged by literal array-body concatenation of the two
JSON-array strings; every other key — including the edit-candidates key and
the callsite span — is written only if the destination does not already have
it (first-writer-wins). -/
theorem C5_amended_merge_semantics :
    (∀ (src dst : List JSXAttr) (v w : String),
        get_attr_string src "data-codepress-symbol-refs" = some v →
        get_attr_string dst "data-codepress-symbol-refs" = some w →
        get_attr_string (copy_payload_keys src dst elide_keys)
            "data-codepress-symbol-refs" = some (merge_json_arrays_str w v)) ∧
    (∀ (src dst : List JSXAttr) (v w : String),
        get_attr_string src "data-codepress-callsite-symbol-refs" = some v →
        get_attr_string dst "data-codepress-callsite-symbol-refs" = some w →
        get_attr_string (copy_payload_keys src dst elide_keys)
            "data-codepress-callsite-symbol-refs" = some (merge_json_arrays_str w v)) ∧
    (∀ (src dst : List JSXAttr) (w : String),
        get_attr_string dst "data-codepress-callsite" = some w →
        get_attr_string (copy_payload_keys src dst elide_keys)
            "data-codepress-callsite" = some w) ∧
    (∀ (src dst : List JSXAttr) (v w : String),
        get_attr_string src "data-codepress-edit-candidates" = some v →
        get_attr_string dst "data-codepress-edit-candidates" = some w →
        get_attr_string (copy_payload_keys src dst elide_keys)
            "data-codepress-edit-candidates" = some w) := by
  refine ⟨?_, ?_, ?_, ?_⟩
  · intro src dst v w hs hd
    show get_attr_string
        (copy_payload_step src
          (copy_payload_step src
            (copy_payload_step src
              (copy_payload_step src
                (copy_payload_step src dst "data-codepress-edit-candidates")
                "data-codepress-source-kinds")
              "data-codepress-callsite")
            "data-codepress-symbol-refs")
          "data-codepress-callsite-symbol-refs") "data-codepress-symbol-refs" = _
    rw [copy_step_ne _ _ _ _ (by decide)]
    rw [copy_step_merge _ _ _ v w (Or.inr rfl) hs]
    rw [copy_step_ne _ _ _ _ (by decide), copy_step_ne _ _ _ _ (by decide),
      copy_step_ne _ _ _ _ (by decide)]
    exact hd
  · intro src dst v w hs hd
    show get_attr_string
        (copy_payload_step src
          (copy_payload_step src
            (copy_payload_step src
              (copy_payload_step src
                (copy_payload_step src dst "data-codepress-edit-candidates")
                "data-codepress-source-kinds")
              "data-codepress-callsite")
            "data-codepress-symbol-refs")
          "data-codepress-callsite-symbol-refs") "data-codepress-callsite-symbol-refs"
        = _
    rw [copy_step_merge _ _ _ v w (Or.inl rfl) hs]
    rw [copy_step_ne _ _ _ _ (by decide), copy_step_ne _ _ _ _ (by decide),
      copy_step_ne _ _ _ _ (by decide), copy_step_ne _ _ _ _ (by decide)]
    exact hd
  · intro src dst w hd
    show get_attr_string
        (copy_payload_step src
          (copy_payload_step src
            (copy_payload_step src
              (copy_payload_step src
                (copy_payload_step src dst "data-codepress-edit-candidates")
                "data-codepress-source-kinds")
              "data-codepress-callsite")
            "data-codepress-symbol-refs")
          "data-codepress-callsite-symbol-refs") "data-codepress-callsite" = _
    rw [copy_step_ne _ _ _ _ (by decide), copy_step_ne _ _ _ _ (by decide)]
    have hd2 :
        get_attr_string
          (copy_payload_step src
            (copy_payload_step src dst "data-codepress-edit-candidates")
            "data-codepress-source-kinds") "data-codepress-callsite" = some w := by
      rw [copy_step_ne _ _ _ _ (by decide), copy_step_ne _ _ _ _ (by decide)]
      exact hd
    rw [copy_step_scalar_keep _ _ _ (by decide)
      (has_of_get_some _ _ _ hd2)]
    exact hd2
  · intro src dst v w hs hd
    show get_attr_string
        (copy_payload_step src
          (copy_payload_step src
            (copy_payload_step src
              (copy_payload_step src
                (copy_payload_step src dst "data-codepress-edit-candidates")
                "data-codepress-source-kinds")
              "data-codepress-callsite")
            "data-codepress-symbol-refs")
          "data-codepress-callsite-symbol-refs") "data-codepress-edit-candidates" = _
    rw [copy_step_ne _ _ _ _ (by decide), copy_step_ne _ _ _ _ (by decide),
      copy_step_ne _ _ _ _ (by decide), copy_step_ne _ _ _ _ (by decide)]
    rw [copy_step_scalar_keep _ _ _ (by decide) (has_of_get_some _ _ _ hd)]
    exact hd

/-- Witness for C5: the amended merge semantics at concrete one-attribute
lists. -/
theorem C5_witness :
    get_attr_string
      (copy_payload_keys [⟨"data-codepress-symbol-refs", some (.lit "[2]")⟩]
        [⟨"data-codepress-symbol-refs", some (.lit "[1]")⟩] elide_keys)
      "data-codepress-symbol-refs" = some (merge_json_arrays_str "[1]" "[2]") :=
  C5_amended_merge_semantics.1
    [⟨"data-codepress-symbol-refs", some (.lit "[2]")⟩]
    [⟨"data-codepress-symbol-refs", some (.lit "[1]")⟩] "[2]" "[1]"
    (by decide) (by decide)

-- ---------------------------------------------------------------------------
-- C9 amended
-- ---------------------------------------------------------------------------

theorem pass2_children_len (keys : List String) :
    ∀ l : NodeList, (pass2_children keys l).len = l.len
  | .nil => rfl
  | .cons c tl => by
    simp [pass2_children, NodeList.len, pass2_children_len keys tl]

/-- Claim C9 as amended: a marker with zero children, more than one child,
or a sole non-element child is not replaced or removed by Pass 2 and keeps
its tag and attributes — but its children are still recursively processed
(they come out as `pass2_children` of the originals, not necessarily
unchanged). -/
theorem C9_amended_bad_marker_left (keys : List String) (tag : TagName)
    (attrs : List JSXAttr) (cs : NodeList) (sp : Option (String × String))
    (hw : is_wrapper tag = true) (hb : wrapper_shape_bad cs = true) :
    pass2_visit keys (.elem tag attrs cs sp) =
      .elem tag attrs (pass2_children keys cs) sp := by
  cases cs with
  | nil => simp [pass2_visit, pass2_children, NodeList.len, hw]
  | cons c tl =>
    cases tl with
    | nil =>
      cases c with
      | elem t a ccs csp => simp [wrapper_shape_bad] at hb
      | exprChild e =>
        simp [pass2_visit, pass2_children, NodeList.len, hw]
      | textChild s =>
        simp [pass2_visit, pass2_children, NodeList.len, hw]
    | cons c2 tl2 =>
      simp [pass2_visit, pass2_children, NodeList.len, hw]

/-- Witness for C9: the marker whose sole child is text is left in place
with its children as visited. -/
theorem C9_witness :
    pass2_visit elide_keys exTextMarker =
      .elem (.tIdent "codepress-marker") []
        (pass2_children elide_keys (.cons (.textChild "x.tsx:4-4") .nil)) none :=
  C9_amended_bad_marker_left elide_keys (.tIdent "codepress-marker") []
    (.cons (.textChild "x.tsx:4-4") .nil) none (by decide) (by decide)

-- ---------------------------------------------------------------------------
-- C1: Pass 1 creates only well-formed markers; Pass 2 removes them all
-- ---------------------------------------------------------------------------

theorem contains_elem (t : TagName) (a : List JSXAttr) (cs : NodeList)
    (sp : Option (String × String)) (name : String) :
    contains_ident_tag (.elem t a cs sp) name =
      ((match t with
        | .tIdent s => decide (s = name)
        | _ => false) || contains_ident_tag_list cs name) := by
  cases t <;> simp [contains_ident_tag]

/-- Applying an attribute update through `fhu_children` changes no tags, so
tag containment is unchanged. -/
theorem contains_fhu (f : List JSXAttr → List JSXAttr) (name : String) :
    ∀ (l l' : NodeList), fhu_children f l = some l' →
      contains_ident_tag_list l' name = contains_ident_tag_list l name
  | .nil, l', h => by simp [fhu_children] at h
  | .cons (.elem t a cs sp) tl, l', h => by
    rw [fhu_children] at h
    by_cases hh : is_host_tag t
    · rw [if_pos hh] at h
      simp only [Option.some.injEq] at h
      subst h
      simp [contains_ident_tag_list, contains_elem]
    · rw [if_neg hh] at h
      cases hcs : fhu_children f cs with
      | some cs' =>
        rw [hcs] at h
        simp only [Option.some.injEq] at h
        subst h
        simp [contains_ident_tag_list, contains_elem, contains_fhu f name cs cs' hcs]
      | none =>
        rw [hcs] at h
        cases htl : fhu_children f tl with
        | some tl' =>
          rw [htl] at h
          simp only [Option.some.injEq] at h
          subst h
          simp [contains_ident_tag_list, contains_elem,
            contains_fhu f name tl tl' htl]
        | none =>
          rw [htl] at h
          simp at h
  | .cons (.exprChild e) tl, l', h => by
    rw [fhu_children] at h
    cases htl : fhu_children f tl with
    | some tl' =>
      rw [htl] at h
      simp only [Option.some.injEq] at h
      subst h
      simp [contains_ident_tag_list, contains_ident_tag,
        contains_fhu f name tl tl' htl]
    | none =>
      rw [htl] at h
      simp at h
  | .cons (.textChild sp) tl, l', h => by
    rw [fhu_children] at h
    cases htl : fhu_children f tl with
    | some tl' =>
      rw [htl] at h
      simp only [Option.some.injEq] at h
      subst h
      simp [contains_ident_tag_list, contains_ident_tag,
        contains_fhu f name tl tl' htl]
    | none =>
      rw [htl] at h
      simp at h

/-- Hoisting a payload into a tree changes no tags. -/
theorem contains_hoist_into (src : List JSXAttr) (keys : List String)
    (name : String) (n : Node) :
    contains_ident_tag (hoist_into src keys n) name = contains_ident_tag n name := by
  cases n with
  | elem t a cs sp =>
    rw [hoist_into]
    cases hcs : fhu_children
        (fun hostAttrs => copy_payload_keys src hostAttrs keys) cs with
    | some cs' =>
      simp [contains_elem, contains_fhu _ name cs cs' hcs]
    | none => simp [contains_elem]
  | exprChild e => rfl
  | textChild sp => rfl

/-- Pass 2 maps elements to elements. -/
theorem pass2_is_elem (keys : List String) (t : TagName) (a : List JSXAttr)
    (cs : NodeList) (sp : Option (String × String)) :
    ∃ t' a' cs' sp', pass2_visit keys (.elem t a cs sp) = .elem t' a' cs' sp' := by
  rw [pass2_visit]
  split
  · exact ⟨_, _, _, _, rfl⟩
  · split
    · rw [hoist_into]
      split
      · exact ⟨_, _, _, _, rfl⟩
      · exact ⟨_, _, _, _, rfl⟩
    · exact ⟨_, _, _, _, rfl⟩

theorem markers_ok_elem_of_not_wrapper (t : TagName) (a : List JSXAttr)
    (cs : NodeList) (sp : Option (String × String)) (hw : is_wrapper t = false)
    (hml : markers_ok_list cs = true) :
    markers_ok (.elem t a cs sp) = true := by
  simp only [markers_ok.eq_def]
  rw [if_neg (by simp [hw])]
  simp [hml]

theorem markers_ok_provider (m : ProviderMeta) (inner : Node)
    (hi : markers_ok inner = true) :
    markers_ok (wrap_with_provider m inner) = true := by
  rw [wrap_with_provider]
  apply markers_ok_elem_of_not_wrapper
  · simp [is_wrapper, provider_ident, wrapper_tag]
  · simp [markers_ok_list, hi]

theorem markers_ok_marker_wrap (csv csr sr : String) (t : TagName)
    (a : List JSXAttr) (cs : NodeList) (sp : Option (String × String))
    (hw : is_wrapper t = false) (hml : markers_ok_list cs = true) :
    markers_ok (wrap_in_marker csv csr sr (.elem t a cs sp)) = true := by
  rw [wrap_in_marker]
  simp only [markers_ok.eq_def]
  rw [if_pos (by simp [is_wrapper])]
  simp [markers_ok_list, markers_ok_elem_of_not_wrapper t a cs sp hw hml]

mutual

/-- Pass 2 on a tree whose markers are all well-formed leaves no marker in
the output. -/
theorem pass2_no_marker (keys : List String) :
    ∀ n : Node, markers_ok n = true →
      contains_ident_tag (pass2_visit keys n) wrapper_tag = false
  | .elem t a cs sp, h => by
    rw [markers_ok.eq_def, Bool.and_eq_true] at h
    have hl := pass2_no_marker_list keys cs h.2
    by_cases hw : is_wrapper t
    · have hshape := h.1
      rw [if_pos (by simp [hw])] at hshape
      cases cs with
      | nil => simp at hshape
      | cons c tl =>
        cases c with
        | elem ct ca ccs csp =>
          cases tl with
          | nil =>
            have hcok : markers_ok (.elem ct ca ccs csp) = true := by
              have h2 := h.2
              rw [markers_ok_list.eq_def, Bool.and_eq_true] at h2
              exact h2.1
            have hchild := pass2_no_marker keys (.elem ct ca ccs csp) hcok
            obtain ⟨t', a', cs', sp', heq⟩ := pass2_is_elem keys ct ca ccs csp
            rw [pass2_visit]
            simp only [pass2_children, heq]
            rw [if_neg (by simp [hw, NodeList.len])]
            rw [contains_hoist_into]
            rw [heq] at hchild
            exact hchild
          | cons c2 tl2 => simp at hshape
        | exprChild e => simp at hshape
        | textChild s => simp at hshape
    · rw [pass2_visit]
      rw [if_pos (by simp [hw])]
      rw [contains_elem]
      cases t with
      | tIdent s =>
        have hs : ¬ s = wrapper_tag := by
          intro hc
          exact hw (by simp [is_wrapper, hc])
        simp [hs, hl]
      | tMember r p => simp [hl]
  | .exprChild e, _ => by simp [pass2_visit, contains_ident_tag]
  | .textChild sp, _ => by simp [pass2_visit, contains_ident_tag]

theorem pass2_no_marker_list (keys : List String) :
    ∀ l : NodeList, markers_ok_list l = true →
      contains_ident_tag_list (pass2_children keys l) wrapper_tag = false
  | .nil, _ => by simp [pass2_children, contains_ident_tag_list]
  | .cons c tl, h => by
    rw [markers_ok_list.eq_def, Bool.and_eq_true] at h
    simp [pass2_children, contains_ident_tag_list,
      pass2_no_marker keys c h.1, pass2_no_marker_list keys tl h.2]

end

/-- What Pass 1's tail produces is always well-formed marker-wise, provided
the element itself is not a marker and its (already-processed) children are
well-formed. -/
theorem finish_markers_ok (cfg : Config) (B : Bindings) (mf : String)
    (fuel : Nat) (tag : TagName) (attrs1 : List JSXAttr) (children' : NodeList)
    (span : Option (String × String)) (inHost flag1 : Bool)
    (msgsUp : List HostMsg) (hw : is_wrapper tag = false)
    (hml : markers_ok_list children' = true) :
    markers_ok
      (pass1_finish cfg B mf fuel tag attrs1 children' span inHost flag1
        msgsUp).1 = true := by
  rw [pass1_finish]
  by_cases hsyn : is_synthetic_element tag = true
  · rw [if_pos hsyn]
    exact markers_ok_elem_of_not_wrapper _ _ _ _ hw hml
  · rw [if_neg hsyn]
    by_cases hcust : (!is_host_tag tag && is_custom_component_name tag) = true
    · rw [if_pos hcust]
      by_cases hh : inHost = true
      · rw [if_pos hh]
        exact markers_ok_provider _ _
          (markers_ok_elem_of_not_wrapper _ _ _ _ hw hml)
      · rw [if_neg hh]
        exact markers_ok_provider _ _
          (markers_ok_marker_wrap _ _ _ _ _ _ _ hw hml)
    · rw [if_neg hcust]
      exact markers_ok_elem_of_not_wrapper _ _ _ _ hw hml

mutual

/-- Pass 1 on a marker-free tree yields a tree whose markers (the ones Pass
1 itself introduced) are all well-formed. -/
theorem pass1_markers_ok (cfg : Config) (B : Bindings) (mf : String) (fuel : Nat) :
    ∀ (inHost flag : Bool) (n : Node),
      contains_ident_tag n wrapper_tag = false →
      markers_ok (pass1_visit cfg B mf fuel inHost flag n).1 = true
  | inHost, flag, .elem tag attrs cs sp, h => by
    rw [contains_elem] at h
    simp only [Bool.or_eq_false_iff] at h
    have hw : is_wrapper tag = false := by
      cases tag with
      | tIdent s =>
        have := h.1
        simp only [decide_eq_false_iff_not] at this
        simp [is_wrapper, this]
      | tMember r p => simp [is_wrapper]
    have hml :=
      pass1_markers_ok_list cfg B mf fuel (inHost || is_host_tag tag) flag cs h.2
    rw [pass1_visit]
    exact finish_markers_ok cfg B mf fuel tag _ _ sp inHost _ _ hw hml
  | _, _, .exprChild e, _ => by simp [pass1_visit, markers_ok]
  | _, _, .textChild sp, _ => by simp [pass1_visit, markers_ok]

theorem pass1_markers_ok_list (cfg : Config) (B : Bindings) (mf : String)
    (fuel : Nat) :
    ∀ (inHost flag : Bool) (l : NodeList),
      contains_ident_tag_list l wrapper_tag = false →
      markers_ok_list (pass1_visit_children cfg B mf fuel inHost flag l).1 = true
  | _, _, .nil, _ => by simp [pass1_visit_children, markers_ok_list]
  | inHost, flag, .cons c tl, h => by
    rw [contains_ident_tag_list, Bool.or_eq_false_iff] at h
    rw [pass1_visit_children]
    simp only [markers_ok_list, Bool.and_eq_true]
    exact ⟨pass1_markers_ok cfg B mf fuel inHost flag c h.1,
      pass1_markers_ok_list cfg B mf fuel inHost _ tl h.2⟩

end

/-- Claim C1 as amended: for every input tree that contains no
`codepress-marker` element of its own, the tree returned after Pass 2
contains no `codepress-marker` element — every marker introduced in Pass 1
is removed.  (The provider carriers `__CPProvider` are not removed; see the
counterexample.) -/
theorem C1_amended_markers_elided (cfg : Config) (B : Bindings) (mf : String)
    (fuel : Nat) (flag : Bool) (t : Node) (h : no_marker t = true) :
    no_marker (process_file cfg B mf fuel flag t).1 = true := by
  rw [no_marker] at h ⊢
  simp only [Bool.not_eq_true'] at h ⊢
  rw [process_file]
  exact pass2_no_marker elide_keys _
    (pass1_markers_ok cfg B mf fuel false flag t h)

/-- Witness for C1: the amended statement at the `<Card />` program. -/
theorem C1_witness :
    no_marker (process_file cfg0 [] "app.tsx" 9 false exCard).1 = true :=
  C1_amended_markers_elided cfg0 [] "app.tsx" 9 false exCard (by decide)

-- ---------------------------------------------------------------------------
-- C8: the global once-only stamp
-- ---------------------------------------------------------------------------

/-- The two attribute names only the stamping block ever writes. -/
theorem stamp_key_ne (k : String)
    (hk : k = "codepress-github-repo-name" ∨ k = "codepress-github-branch")
    (key : String)
    (hkey : key ≠ "codepress-github-repo-name" ∧ key ≠ "codepress-github-branch") :
    ¬ key = k := by
  rcases hk with h | h <;> subst h
  · exact hkey.1
  · exact hkey.2

theorem has_set_ne (l : List JSXAttr) (ek v k : String) (h : ¬ ek = k) :
    has_attr (set_attr_string l ek v) k = has_attr l k := by
  unfold set_attr_string
  rw [has_attach_ne _ _ _ _ h, has_remove_ne _ _ h]

theorem has_merge_or_attach_ne (l : List JSXAttr) (ek v k : String)
    (h : ¬ ek = k) :
    has_attr (merge_or_attach l ek v) k = has_attr l k := by
  unfold merge_or_attach
  cases hg : get_attr_string l ek
  · exact has_attach_ne _ _ _ _ h
  · exact has_set_ne _ _ _ _ h

theorem has_put_if_absent_ne (l : List JSXAttr) (ek v k : String)
    (h : ¬ ek = k) :
    has_attr (put_if_absent l ek v) k = has_attr l k := by
  unfold put_if_absent
  cases hg : get_attr_string l ek
  · exact has_attach_ne _ _ _ _ h
  · rfl

theorem has_apply_host_msg (attrs : List JSXAttr) (m : HostMsg) (k : String)
    (hk : k = "codepress-github-repo-name" ∨ k = "codepress-github-branch") :
    has_attr (apply_host_msg attrs m) k = has_attr attrs k := by
  unfold apply_host_msg
  rw [has_put_if_absent_ne _ _ _ _ (stamp_key_ne k hk _ (by decide)),
    has_merge_or_attach_ne _ _ _ _ (stamp_key_ne k hk _ (by decide)),
    has_merge_or_attach_ne _ _ _ _ (stamp_key_ne k hk _ (by decide))]

theorem has_apply_host_msgs (msgs : List HostMsg) (k : String)
    (hk : k = "codepress-github-repo-name" ∨ k = "codepress-github-branch") :
    ∀ attrs : List JSXAttr, has_attr (apply_host_msgs attrs msgs) k = has_attr attrs k := by
  induction msgs with
  | nil => intro attrs; rfl
  | cons m rest ih =>
    intro attrs
    show has_attr (apply_host_msgs (apply_host_msg attrs m) rest) k = _
    rw [ih, has_apply_host_msg _ _ _ hk]

theorem stamp_globals_mono (cfg : Config) (flag : Bool) (tag : TagName)
    (attrs : List JSXAttr) (h : flag = true) :
    (stamp_globals cfg flag tag attrs).2 = true := by
  unfold stamp_globals
  rw [if_neg (by simp [h])]
  exact h

theorem stamp_globals_cases (cfg : Config) (flag : Bool) (tag : TagName)
    (attrs : List JSXAttr) :
    stamp_globals cfg flag tag attrs = (attrs, flag) ∨
    (flag = false ∧ (stamp_globals cfg flag tag attrs).2 = true) := by
  unfold stamp_globals
  by_cases h1 : cfg.repo_name.isSome ∧ flag = false
  · rw [if_pos h1]
    cases tag with
    | tIdent s =>
      by_cases h2 : (s = "html" ∨ s = "body" ∨ s = "div")
      · rw [if_pos h2]
        exact Or.inr ⟨h1.2, rfl⟩
      · rw [if_neg h2]
        exact Or.inl rfl
    | tMember r p =>
      dsimp only
      rw [if_neg (by decide)]
      exact Or.inl rfl
  · rw [if_neg h1]
    exact Or.inl rfl

theorem stamp_globals_count (cfg : Config) (flag : Bool) (tag : TagName)
    (attrs : List JSXAttr) (k : String) :
    (if has_attr (stamp_globals cfg flag tag attrs).1 k then 1 else 0) +
        (if flag then 1 else 0) ≤
      (if has_attr attrs k then 1 else 0) +
        (if (stamp_globals cfg flag tag attrs).2 then 1 else 0) := by
  rcases stamp_globals_cases cfg flag tag attrs with h | ⟨hf, ht⟩
  · rw [h]
  · subst hf
    rw [ht]
    have h1 :
        (if has_attr (stamp_globals cfg false tag attrs).1 k then 1 else 0) ≤ 1 := by
      split <;> omega
    have h2 : (if (false : Bool) = true then 1 else 0) = 0 := rfl
    have h3 : (if (true : Bool) = true then 1 else 0) = 1 := rfl
    rw [h2, h3]
    omega

theorem count_attr_elem (t : TagName) (a : List JSXAttr) (cs : NodeList)
    (sp : Option (String × String)) (k : String) :
    count_attr (.elem t a cs sp) k =
      (if has_attr a k then 1 else 0) + count_attr_list cs k := rfl

theorem count_attr_list_cons (c : Node) (tl : NodeList) (k : String) :
    count_attr_list (.cons c tl) k = count_attr c k + count_attr_list tl k := rfl

theorem count_attr_list_nil (k : String) : count_attr_list .nil k = 0 := rfl

theorem has_append_one (l : List JSXAttr) (x : JSXAttr) (k : String) :
    has_attr (l ++ [x]) k = (has_attr l k || decide (x.name = k)) := by
  simp [has_attr]

theorem count_wrap_provider (m : ProviderMeta) (inner : Node) (k : String)
    (hk : k = "codepress-github-repo-name" ∨ k = "codepress-github-branch") :
    count_attr (wrap_with_provider m inner) k = count_attr inner k := by
  rw [wrap_with_provider, count_attr_elem, count_attr_list_cons, count_attr_list_nil]
  have h : ¬ ("value" : String) = k := stamp_key_ne k hk "value" (by decide)
  simp [has_attr, h]

theorem count_wrap_marker (csv csr sr : String) (inner : Node) (k : String)
    (hk : k = "codepress-github-repo-name" ∨ k = "codepress-github-branch") :
    count_attr (wrap_in_marker csv csr sr inner) k = count_attr inner k := by
  rw [wrap_in_marker, count_attr_elem, count_attr_list_cons, count_attr_list_nil]
  have h : has_attr
      (attach_attr_string
        (attach_attr_string
          [⟨"style", some (.exprC style_contents_expr)⟩,
           ⟨"data-codepress-callsite", some (.lit csv)⟩]
          "data-codepress-callsite-symbol-refs" csr)
        "data-codepress-symbol-refs" sr) k = false := by
    rw [has_attach_ne _ "data-codepress-symbol-refs" _ k
        (stamp_key_ne k hk "data-codepress-symbol-refs" (by decide)),
      has_attach_ne _ "data-codepress-callsite-symbol-refs" _ k
        (stamp_key_ne k hk "data-codepress-callsite-symbol-refs" (by decide))]
    have h1 : ¬ ("style" : String) = k := stamp_key_ne k hk "style" (by decide)
    have h2 : ¬ ("data-codepress-callsite" : String) = k :=
      stamp_key_ne k hk "data-codepress-callsite" (by decide)
    simp [has_attr, h1, h2]
  simp [h]

theorem pass1_visit_elem_eq (cfg : Config) (B : Bindings) (mf : String)
    (fuel : Nat) (inHost flag : Bool) (tag : TagName) (attrs : List JSXAttr)
    (cs : NodeList) (sp : Option (String × String)) :
    pass1_visit cfg B mf fuel inHost flag (.elem tag attrs cs sp) =
      pass1_finish cfg B mf fuel tag
        (if is_host_tag tag then
          apply_host_msgs attrs
            (pass1_visit_children cfg B mf fuel (inHost || is_host_tag tag) flag
              cs).2.2
         else attrs)
        (pass1_visit_children cfg B mf fuel (inHost || is_host_tag tag) flag cs).1
        sp inHost
        (pass1_visit_children cfg B mf fuel (inHost || is_host_tag tag) flag cs).2.1
        (if is_host_tag tag then []
         else
          (pass1_visit_children cfg B mf fuel (inHost || is_host_tag tag) flag
            cs).2.2) := by
  rw [pass1_visit]

/-- Pass 1's tail: the global flag is monotone, and the number of elements
carrying a stamp attribute grows by at most the flag flip. -/
theorem finish_stamp (cfg : Config) (B : Bindings) (mf : String) (fuel : Nat)
    (tag : TagName) (attrs1 : List JSXAttr) (children' : NodeList)
    (span : Option (String × String)) (inHost flag1 : Bool)
    (msgsUp : List HostMsg) (k : String)
    (hk : k = "codepress-github-repo-name" ∨ k = "codepress-github-branch") :
    (flag1 = true →
      (pass1_finish cfg B mf fuel tag attrs1 children' span inHost flag1
        msgsUp).2.1 = true) ∧
    count_attr
        (pass1_finish cfg B mf fuel tag attrs1 children' span inHost flag1
          msgsUp).1 k + (if flag1 then 1 else 0) ≤
      ((if has_attr attrs1 k then 1 else 0) + count_attr_list children' k) +
        (if (pass1_finish cfg B mf fuel tag attrs1 children' span inHost flag1
            msgsUp).2.1 then 1 else 0) := by
  rw [pass1_finish]
  by_cases hsyn : is_synthetic_element tag = true
  · rw [if_pos hsyn]
    exact ⟨fun h => h, by rw [count_attr_elem]⟩
  · rw [if_neg hsyn]
    have hfp : has_attr
        (attach_attr_string attrs1 "codepress-data-fp" (encoded_path_val span)) k =
        has_attr attrs1 k :=
      has_attach_ne _ "codepress-data-fp" _ k
        (stamp_key_ne k hk "codepress-data-fp" (by decide))
    have hsc := stamp_globals_count cfg flag1 tag
      (attach_attr_string attrs1 "codepress-data-fp" (encoded_path_val span)) k
    rw [hfp] at hsc
    by_cases hcust : (!is_host_tag tag && is_custom_component_name tag) = true
    · rw [if_pos hcust]
      by_cases hh : inHost = true
      · rw [if_pos hh]
        dsimp only
        constructor
        · intro h
          exact stamp_globals_mono _ _ _ _ h
        · rw [count_wrap_provider _ _ _ hk, count_attr_elem]
          rw [has_attach_ne _ "data-codepress-symbol-refs" _ k
              (stamp_key_ne k hk "data-codepress-symbol-refs" (by decide)),
            has_attach_ne _ "data-codepress-source-kinds" _ k
              (stamp_key_ne k hk "data-codepress-source-kinds" (by decide)),
            has_attach_ne _ "data-codepress-edit-candidates" _ k
              (stamp_key_ne k hk "data-codepress-edit-candidates" (by decide))]
          omega
      · rw [if_neg hh]
        dsimp only
        constructor
        · intro h
          exact stamp_globals_mono _ _ _ _ h
        · rw [count_wrap_provider _ _ _ hk, count_wrap_marker _ _ _ _ _ hk,
            count_attr_elem]
          rw [has_attach_ne _ "data-codepress-symbol-refs" _ k
              (stamp_key_ne k hk "data-codepress-symbol-refs" (by decide)),
            has_attach_ne _ "data-codepress-source-kinds" _ k
              (stamp_key_ne k hk "data-codepress-source-kinds" (by decide)),
            has_attach_ne _ "data-codepress-edit-candidates" _ k
              (stamp_key_ne k hk "data-codepress-edit-candidates" (by decide))]
          omega
    · rw [if_neg hcust]
      dsimp only
      constructor
      · intro h
        exact stamp_globals_mono _ _ _ _ h
      · rw [count_attr_elem]
        rw [has_append_one]
        have hcs : ¬ ("data-codepress-callsite" : String) = k :=
          stamp_key_ne k hk "data-codepress-callsite" (by decide)
        rw [has_attach_ne _ "data-codepress-callsite-symbol-refs" _ k
            (stamp_key_ne k hk "data-codepress-callsite-symbol-refs" (by decide)),
          has_attach_ne _ "data-codepress-symbol-refs" _ k
            (stamp_key_ne k hk "data-codepress-symbol-refs" (by decide)),
          has_attach_ne _ "data-codepress-source-kinds" _ k
            (stamp_key_ne k hk "data-codepress-source-kinds" (by decide)),
          has_attach_ne _ "data-codepress-edit-candidates" _ k
            (stamp_key_ne k hk "data-codepress-edit-candidates" (by decide))]
        simp only [hcs, decide_False, Bool.or_false]
        omega

mutual

/-- Pass 1: the global flag is monotone and, over the whole visit, the
number of elements carrying a stamp-only attribute grows by at most one —
and only together with the flag flipping from unset to set. -/
theorem pass1_stamp (cfg : Config) (B : Bindings) (mf : String) (fuel : Nat)
    (k : String)
    (hk : k = "codepress-github-repo-name" ∨ k = "codepress-github-branch") :
    ∀ (inHost flag : Bool) (n : Node),
      (flag = true → (pass1_visit cfg B mf fuel inHost flag n).2.1 = true) ∧
      count_attr (pass1_visit cfg B mf fuel inHost flag n).1 k +
          (if flag then 1 else 0) ≤
        count_attr n k +
          (if (pass1_visit cfg B mf fuel inHost flag n).2.1 then 1 else 0)
  | inHost, flag, .elem tag attrs cs sp => by
    have hrec := pass1_stamp_list cfg B mf fuel k hk (inHost || is_host_tag tag)
      flag cs
    have hattrs1 : has_attr
        (if is_host_tag tag then
          apply_host_msgs attrs
            (pass1_visit_children cfg B mf fuel (inHost || is_host_tag tag) flag
              cs).2.2
         else attrs) k = has_attr attrs k := by
      split
      · exact has_apply_host_msgs _ _ hk _
      · rfl
    have hfin := finish_stamp cfg B mf fuel tag
      (if is_host_tag tag then
        apply_host_msgs attrs
          (pass1_visit_children cfg B mf fuel (inHost || is_host_tag tag) flag
            cs).2.2
       else attrs)
      (pass1_visit_children cfg B mf fuel (inHost || is_host_tag tag) flag cs).1
      sp inHost
      (pass1_visit_children cfg B mf fuel (inHost || is_host_tag tag) flag cs).2.1
      (if is_host_tag tag then []
       else
        (pass1_visit_children cfg B mf fuel (inHost || is_host_tag tag) flag
          cs).2.2)
      k hk
    rw [hattrs1] at hfin
    rw [pass1_visit_elem_eq, count_attr_elem]
    constructor
    · intro h
      exact hfin.1 (hrec.1 h)
    · have h1 := hfin.2
      have h2 := hrec.2
      omega
  | inHost, flag, .exprChild e => by
    rw [pass1_visit]
    exact ⟨fun h => h, Nat.le_refl _⟩
  | inHost, flag, .textChild sp => by
    rw [pass1_visit]
    exact ⟨fun h => h, Nat.le_refl _⟩

theorem pass1_stamp_list (cfg : Config) (B : Bindings) (mf : String) (fuel : Nat)
    (k : String)
    (hk : k = "codepress-github-repo-name" ∨ k = "codepress-github-branch") :
    ∀ (inHost flag : Bool) (l : NodeList),
      (flag = true → (pass1_visit_children cfg B mf fuel inHost flag l).2.1 = true) ∧
      count_attr_list (pass1_visit_children cfg B mf fuel inHost flag l).1 k +
          (if flag then 1 else 0) ≤
        count_attr_list l k +
          (if (pass1_visit_children cfg B mf fuel inHost flag l).2.1 then 1 else 0)
  | inHost, flag, .nil => by
    rw [pass1_visit_children]
    exact ⟨fun h => h, Nat.le_refl _⟩
  | inHost, flag, .cons c tl => by
    have h1 := pass1_stamp cfg B mf fuel k hk inHost flag c
    have h2 := pass1_stamp_list cfg B mf fuel k hk inHost
      (pass1_visit cfg B mf fuel inHost flag c).2.1 tl
    rw [pass1_visit_children]
    dsimp only
    rw [count_attr_list_cons]
    constructor
    · intro h
      exact h2.1 (h1.1 h)
    · have e1 := h1.2
      have e2 := h2.2
      rw [count_attr_list_cons]
      omega

end

theorem copy_step_has_other (src dst : List JSXAttr) (key k : String)
    (hne : ¬ key = k) :
    has_attr (copy_payload_step src dst key) k = has_attr dst k := by
  rw [copy_payload_step]
  cases hsrc : get_attr_string src key with
  | none => rfl
  | some v =>
    dsimp only
    by_cases hk : key = "data-codepress-callsite-symbol-refs" ∨
        key = "data-codepress-symbol-refs"
    · rw [if_pos hk]
      cases hdst : get_attr_string dst key with
      | some existing =>
        dsimp only
        rw [has_attach_ne _ _ _ _ hne, has_remove_ne key k hne dst]
      | none =>
        dsimp only
        rw [has_attach_ne _ _ _ _ hne]
    · rw [if_neg hk]
      by_cases hd : has_attr dst key = true
      · rw [if_pos hd]
      · rw [if_neg hd, has_attach_ne _ _ _ _ hne]

theorem copy_keys_has_other (src : List JSXAttr) (k : String) :
    ∀ (keys : List String), (∀ key ∈ keys, ¬ key = k) →
      ∀ dst : List JSXAttr,
        has_attr (copy_payload_keys src dst keys) k = has_attr dst k
  | [], _, dst => rfl
  | key :: rest, hks, dst => by
    have h1 : ¬ key = k := hks key (List.mem_cons_self key rest)
    have h2 : ∀ key2 ∈ rest, ¬ key2 = k := fun key2 hm =>
      hks key2 (List.mem_cons_of_mem key hm)
    show has_attr (copy_payload_keys src (copy_payload_step src dst key) rest) k =
      has_attr dst k
    rw [copy_keys_has_other src k rest h2 (copy_payload_step src dst key),
      copy_step_has_other src dst key k h1]

theorem count_fhu (f : List JSXAttr → List JSXAttr) (k : String)
    (hf : ∀ a, has_attr (f a) k = has_attr a k) :
    ∀ (cs cs' : NodeList), fhu_children f cs = some cs' →
      count_attr_list cs' k = count_attr_list cs k
  | .nil, cs', h => by rw [fhu_children] at h; exact Option.noConfusion h
  | .cons (.elem t a ccs sp) tl, cs', h => by
    rw [fhu_children] at h
    by_cases ht : is_host_tag t = true
    · rw [if_pos ht] at h
      simp only [Option.some.injEq] at h
      subst h
      rw [count_attr_list_cons, count_attr_list_cons, count_attr_elem,
        count_attr_elem, hf]
    · rw [if_neg ht] at h
      cases hccs : fhu_children f ccs with
      | some ccs2 =>
        rw [hccs] at h
        simp only [Option.some.injEq] at h
        subst h
        have hr := count_fhu f k hf ccs ccs2 hccs
        rw [count_attr_list_cons, count_attr_list_cons, count_attr_elem,
          count_attr_elem, hr]
      | none =>
        rw [hccs] at h
        cases htl : fhu_children f tl with
        | some tl2 =>
          rw [htl] at h
          simp only [Option.some.injEq] at h
          subst h
          have hr := count_fhu f k hf tl tl2 htl
          rw [count_attr_list_cons, count_attr_list_cons, hr]
        | none =>
          rw [htl] at h
          exact Option.noConfusion h
  | .cons (.exprChild e) tl, cs', h => by
    rw [fhu_children] at h
    cases htl : fhu_children f tl with
    | some tl2 =>
      rw [htl] at h
      simp only [Option.some.injEq] at h
      subst h
      have hr := count_fhu f k hf tl tl2 htl
      rw [count_attr_list_cons, count_attr_list_cons, hr]
    | none =>
      rw [htl] at h
      exact Option.noConfusion h
  | .cons (.textChild sp) tl, cs', h => by
    rw [fhu_children] at h
    cases htl : fhu_children f tl with
    | some tl2 =>
      rw [htl] at h
      simp only [Option.some.injEq] at h
      subst h
      have hr := count_fhu f k hf tl tl2 htl
      rw [count_attr_list_cons, count_attr_list_cons, hr]
    | none =>
      rw [htl] at h
      exact Option.noConfusion h

theorem count_hoist_into (src : List JSXAttr) (keys : List String) (k : String)
    (hkeys : ∀ key ∈ keys, ¬ key = k) (n : Node) :
    count_attr (hoist_into src keys n) k = count_attr n k := by
  cases n with
  | elem t a cs sp =>
    rw [hoist_into]
    have hf : ∀ hostAttrs : List JSXAttr,
        has_attr (copy_payload_keys src hostAttrs keys) k = has_attr hostAttrs k :=
      fun hostAttrs => copy_keys_has_other src k keys hkeys hostAttrs
    cases hcs : fhu_children
        (fun hostAttrs => copy_payload_keys src hostAttrs keys) cs with
    | some cs2 =>
      dsimp only
      rw [count_attr_elem, count_attr_elem, count_fhu _ k hf cs cs2 hcs]
    | none =>
      dsimp only
      rw [count_attr_elem, count_attr_elem,
        copy_keys_has_other src k keys hkeys a]
  | exprChild e => rfl
  | textChild sp => rfl

mutual

/-- Pass 2 never increases the number of elements carrying attribute `k`
when `k` is not among the hoisted payload keys. -/
theorem pass2_count (keys : List String) (k : String)
    (hkeys : ∀ key ∈ keys, ¬ key = k) :
    ∀ n : Node, count_attr (pass2_visit keys n) k ≤ count_attr n k
  | .elem tag attrs cs sp => by
    have hrec := pass2_count_list keys k hkeys cs
    rw [pass2_visit]
    split
    · rw [count_attr_elem, count_attr_elem]
      omega
    · split
      · next ct ca ccs csp heq =>
        rw [count_hoist_into attrs keys k hkeys, count_attr_elem, count_attr_elem]
        rw [heq, count_attr_list_cons, count_attr_list_nil] at hrec
        rw [count_attr_elem] at hrec
        omega
      · rw [count_attr_elem, count_attr_elem]
        omega
  | .exprChild e => by
    simp only [pass2_visit.eq_def]
    exact Nat.le_refl _
  | .textChild sp => by
    simp only [pass2_visit.eq_def]
    exact Nat.le_refl _

theorem pass2_count_list (keys : List String) (k : String)
    (hkeys : ∀ key ∈ keys, ¬ key = k) :
    ∀ l : NodeList,
      count_attr_list (pass2_children keys l) k ≤ count_attr_list l k
  | .nil => by rw [pass2_children]
  | .cons c tl => by
    have h1 := pass2_count keys k hkeys c
    have h2 := pass2_count_list keys k hkeys tl
    rw [pass2_children, count_attr_list_cons, count_attr_list_cons]
    omega

end

theorem process_file_stamp (cfg : Config) (B : Bindings) (mf : String)
    (fuel : Nat) (flag : Bool) (t : Node) (k : String)
    (hk : k = "codepress-github-repo-name" ∨ k = "codepress-github-branch") :
    (flag = true → (process_file cfg B mf fuel flag t).2 = true) ∧
    count_attr (process_file cfg B mf fuel flag t).1 k +
        (if flag then 1 else 0) ≤
      count_attr t k +
        (if (process_file cfg B mf fuel flag t).2 then 1 else 0) := by
  have h1 := pass1_stamp cfg B mf fuel k hk false flag t
  have hkeys : ∀ key ∈ elide_keys, ¬ key = k := by
    rcases hk with h | h <;> subst h <;> decide
  have h2 := pass2_count elide_keys k hkeys
    (pass1_visit cfg B mf fuel false flag t).1
  rw [process_file]
  dsimp only
  exact ⟨h1.1, by omega⟩

theorem process_files_stamp (cfg : Config) (fuel : Nat) (k : String)
    (hk : k = "codepress-github-repo-name" ∨ k = "codepress-github-branch") :
    ∀ (flag : Bool) (files : List (Bindings × String × Node)),
      (flag = true → (process_files cfg fuel flag files).2 = true) ∧
      ((process_files cfg fuel flag files).1.map
          (fun n => count_attr n k)).sum + (if flag then 1 else 0) ≤
        (files.map (fun f => count_attr f.2.2 k)).sum +
          (if (process_files cfg fuel flag files).2 then 1 else 0)
  | flag, [] => by
    rw [process_files]
    exact ⟨fun h => h, Nat.le_refl _⟩
  | flag, (B, mf, t) :: rest => by
    have h1 := process_file_stamp cfg B mf fuel flag t k hk
    have h2 := process_files_stamp cfg fuel k hk
      (process_file cfg B mf fuel flag t).2 rest
    rw [process_files]
    dsimp only
    rw [List.map_cons, List.sum_cons, List.map_cons, List.sum_cons]
    exact ⟨fun h => h2.1 (h1.1 h), by dsimp only; omega⟩

/-- C8: the repo/branch stamping is global-once.  Across any run of the
process over any file list whose trees do not already carry the attribute,
at most one element of all the output trees ends up with the repository
attribute, and likewise for the branch attribute; and in the concrete
two-file run (each file a root-eligible `<div />`), the first file's element
receives both attributes exactly once and the second file's element receives
neither. -/
theorem C8_global_once :
    (∀ (cfg : Config) (fuel : Nat) (files : List (Bindings × String × Node)),
      (∀ f ∈ files, count_attr f.2.2 "codepress-github-repo-name" = 0) →
      ((process_files cfg fuel false files).1.map
        (fun n => count_attr n "codepress-github-repo-name")).sum ≤ 1) ∧
    (∀ (cfg : Config) (fuel : Nat) (files : List (Bindings × String × Node)),
      (∀ f ∈ files, count_attr f.2.2 "codepress-github-branch" = 0) →
      ((process_files cfg fuel false files).1.map
        (fun n => count_attr n "codepress-github-branch")).sum ≤ 1) ∧
    ((process_files cfg1 9 false
        [([], "a.tsx", exDivA), ([], "b.tsx", exDivB)]).1.map
      (fun n =>
        (count_attr n "codepress-github-repo-name",
         count_attr n "codepress-github-branch"))) = [(1, 1), (0, 0)] := by
  refine ⟨?_, ?_, by decide⟩
  · intro cfg fuel files hclean
    have hps := process_files_stamp cfg fuel "codepress-github-repo-name"
      (Or.inl rfl) false files
    have hz : (files.map
        (fun f => count_attr f.2.2 "codepress-github-repo-name")).sum = 0 := by
      refine List.sum_eq_zero ?_
      intro x hx
      simp only [List.mem_map] at hx
      obtain ⟨f, hf, rfl⟩ := hx
      exact hclean f hf
    have hb : (if (process_files cfg fuel false files).2 = true then 1 else 0)
        ≤ 1 := by split <;> omega
    have h0 : (if (false : Bool) = true then 1 else 0) = 0 := rfl
    have hle := hps.2
    omega
  · intro cfg fuel files hclean
    have hps := process_files_stamp cfg fuel "codepress-github-branch"
      (Or.inr rfl) false files
    have hz : (files.map
        (fun f => count_attr f.2.2 "codepress-github-branch")).sum = 0 := by
      refine List.sum_eq_zero ?_
      intro x hx
      simp only [List.mem_map] at hx
      obtain ⟨f, hf, rfl⟩ := hx
      exact hclean f hf
    have hb : (if (process_files cfg fuel false files).2 = true then 1 else 0)
        ≤ 1 := by split <;> omega
    have h0 : (if (false : Bool) = true then 1 else 0) = 0 := rfl
    have hle := hps.2
    omega

/-- Concrete instantiation of the general bound of `C8_global_once` at the
two-file run. -/
theorem C8_witness :
    (∀ f ∈ ([([], "a.tsx", exDivA), ([], "b.tsx", exDivB)] :
        List (Bindings × String × Node)),
      count_attr f.2.2 "codepress-github-repo-name" = 0) ∧
    ((process_files cfg1 9 false
        [([], "a.tsx", exDivA), ([], "b.tsx", exDivB)]).1.map
      (fun n => count_attr n "codepress-github-repo-name")).sum ≤ 1 :=
  ⟨by decide, C8_global_once.1 cfg1 9
    [([], "a.tsx", exDivA), ([], "b.tsx", exDivB)] (by decide)⟩

end CodePress
